import Mathlib

/-!
# Constraint assembly of the Tasks QP controller (`src/QPConstr.cpp`)

A shallow embedding of `MotionConstr`, `ContactAccConstr` and
`SelfCollisionConstr`.

Conventions of the embedding.

* `double` is modelled by exact rational arithmetic (`ℚ`); the bound vectors
  `XL_`/`XU_`, which hold `+infinity`, have entries in `WithTop ℚ`.
* Container sizes and Eigen indices are natural numbers.
* An Eigen dense object is its dimensions together with its coefficient
  function; coefficients outside the dimensions are never written.
* Eigen's range and size assertions (block inside the matrix, source of a
  block assignment as large as the block, coefficient index in range) make the
  operation fail: such operations return `Option`. Reading `normals[j]` past
  the end of the vector fails in the same way.
* RBDyn, SpaceVecAlg, SCD and `std::sqrt` are not part of the repository.
  Their answers at the configuration of one control cycle are fields of
  `MultiBodyConfig`; every theorem holds for all values of these fields.
* Scratch buffers that are completely overwritten before they are read
  (`fullJac_`, `fullJacDot_`, `alphaVec_`, `calcVec_`, `transJac`) are local
  values of the `update` functions, not state.
* A quotient by zero is an infinity or a NaN in the source and is 0 in `ℚ`.
  `SelfCollisionConstr::update` divides by `dist`, by `di - ds` and by `step_`
  without a guard, so the state of the model carries the values of the source
  in the runs in which none of these divisors is zero. The definitions
  `divChecked`, `normalChecked`, `dampersChecked` and `boundChecked` evaluate
  the same expressions and return `none` where the source leaves a value that
  is not a finite number. The theorems relate the values that `update`
  computes from these quotients to one another; where a theorem gives the
  bound of an active pair as a number, the three divisors are non-zero.
-/

namespace tasks.qp

/-! ## Dense linear algebra -/

/-- Eigen::Vector3d. -/
structure Vector3d where
  x : ℚ
  y : ℚ
  z : ℚ
deriving DecidableEq

/-- Eigen::Vector3d::Zero(). -/
def Vector3d.zero : Vector3d := ⟨0, 0, 0⟩

/-- Coefficient-wise difference `a - b`. -/
def Vector3d.sub (a b : Vector3d) : Vector3d := ⟨a.x - b.x, a.y - b.y, a.z - b.z⟩

/-- Division by a scalar, `a / s`. -/
def Vector3d.div (a : Vector3d) (s : ℚ) : Vector3d := ⟨a.x / s, a.y / s, a.z / s⟩

/-- Inner product `a.transpose() * b`. -/
def Vector3d.dot (a b : Vector3d) : ℚ := a.x * b.x + a.y * b.y + a.z * b.z

/-- Eigen::MatrixXd: dimensions and coefficients. -/
structure MatrixXd where
  rows : Nat
  cols : Nat
  coeff : Nat → Nat → ℚ

/-- Eigen::VectorXd: size and coefficients. -/
structure VectorXd where
  size : Nat
  coeff : Nat → ℚ

/-- Result of `resize(r, c)` followed by `setZero()`. -/
def MatrixXd.zero (r c : Nat) : MatrixXd := ⟨r, c, fun _ _ => 0⟩

/-- Result of `resize(n)` followed by `setZero()`. -/
def VectorXd.zero (n : Nat) : VectorXd := ⟨n, fun _ => 0⟩

/-- MatrixXd::Identity(n, n) negated. -/
def MatrixXd.negIdentity (n : Nat) : MatrixXd := ⟨n, n, fun i j => if i = j then -1 else 0⟩

/-- Unary minus of a matrix. -/
def MatrixXd.neg (M : MatrixXd) : MatrixXd := ⟨M.rows, M.cols, fun i j => -M.coeff i j⟩

/-- Unary minus of a vector. -/
def VectorXd.neg (v : VectorXd) : VectorXd := ⟨v.size, fun i => -v.coeff i⟩

/-- Transpose of a column vector, a `1 x size` matrix. -/
def VectorXd.transpose (v : VectorXd) : MatrixXd := ⟨1, v.size, fun _ j => v.coeff j⟩

/-- A column vector seen as a `size x 1` matrix. -/
def VectorXd.asMatrix (v : VectorXd) : MatrixXd := ⟨v.size, 1, fun i _ => v.coeff i⟩

/-- Matrix `M` with the coefficients of the block at `(r, c)` of size `h x w` replaced
by those of `B`. -/
def MatrixXd.withBlock (M : MatrixXd) (r c h w : Nat) (B : MatrixXd) : MatrixXd :=
  { M with coeff := fun i j =>
      if r ≤ i ∧ i < r + h ∧ c ≤ j ∧ j < c + w then B.coeff (i - r) (j - c) else M.coeff i j }

/-- Assignment `M.block(r, c, h, w) = B`. Eigen asserts that the block lies inside `M`
and that `B` has the dimensions of the block. -/
def MatrixXd.assignBlock (M : MatrixXd) (r c h w : Nat) (B : MatrixXd) : Option MatrixXd :=
  if r + h ≤ M.rows ∧ c + w ≤ M.cols ∧ B.rows = h ∧ B.cols = w then
    some (M.withBlock r c h w B)
  else none

/-- Call `M.block(r, c, h, w).setZero()`. -/
def MatrixXd.setZeroBlock (M : MatrixXd) (r c h w : Nat) : Option MatrixXd :=
  M.assignBlock r c h w (MatrixXd.zero h w)

/-- Assignment `v(i) = a`; the index has to be in range. -/
def VectorXd.set (v : VectorXd) (i : Nat) (a : ℚ) : Option VectorXd :=
  if i < v.size then some { v with coeff := fun k => if k = i then a else v.coeff k } else none

/-- Assignment `v.segment(start, n) = w`; the segment has to lie inside `v` and `w` has
to have size `n`. -/
def VectorXd.assignSegment (v : VectorXd) (start n : Nat) (w : VectorXd) : Option VectorXd :=
  if start + n ≤ v.size ∧ w.size = n then
    some { v with coeff := fun k => if start ≤ k ∧ k < start + n then w.coeff (k - start) else v.coeff k }
  else none

/-- Product `J.block(3, 0, 3, J.cols()) * a`: the translational rows of a 6-row Jacobian
applied to a generalized velocity vector. -/
def MatrixXd.transMulVec (J : MatrixXd) (a : VectorXd) : Vector3d :=
  ⟨∑ c ∈ Finset.range J.cols, J.coeff 3 c * a.coeff c,
   ∑ c ∈ Finset.range J.cols, J.coeff 4 c * a.coeff c,
   ∑ c ∈ Finset.range J.cols, J.coeff 5 c * a.coeff c⟩

/-- Product `J.block(3, 0, 3, J.cols()).transpose() * n`: one coefficient per column
of `J`. A leading unary minus in the source applies to `J`. -/
def MatrixXd.transTMul (J : MatrixXd) (n : Vector3d) : VectorXd :=
  ⟨J.cols, fun c => J.coeff 3 c * n.x + J.coeff 4 c * n.y + J.coeff 5 c * n.z⟩

/-- Product `J * a` of a matrix with a vector. -/
def MatrixXd.mulVec (J : MatrixXd) (a : VectorXd) : VectorXd :=
  ⟨J.rows, fun r => ∑ c ∈ Finset.range J.cols, J.coeff r c * a.coeff c⟩

/-- Product of a vector with a scalar. -/
def VectorXd.scale (v : VectorXd) (s : ℚ) : VectorXd := ⟨v.size, fun i => v.coeff i * s⟩

/-- Coefficient-wise sum (the value `v += w` leaves in `v`). -/
def VectorXd.add (v w : VectorXd) : VectorXd := ⟨v.size, fun i => v.coeff i + w.coeff i⟩

/-! ## External collaborators -/

/-- The part of rbd::MultiBody the constraints read. -/
structure MultiBody where
  /-- Method `mb.nrDof()`. -/
  nrDof : Nat
  /-- Expression `mb.joint(0).dof()`. -/
  joint0Dof : Nat
  /-- Method `mb.bodyIndexById(id)`. -/
  bodyIndexById : Int → Nat

/-- An rbd::Jacobian object: the body it is bound to and its current point. -/
structure Jacobian where
  bodyId : Int
  point : Vector3d

/-- Constructor `rbd::Jacobian(mb, bodyId)`; the point defaults to the origin. -/
def Jacobian.new (bodyId : Int) : Jacobian := ⟨bodyId, Vector3d.zero⟩

/-- Plücker transform sva::PTransform. -/
structure PTransform where
  rotation : Nat → Nat → ℚ
  translation : Vector3d

/-- SCD::Matrix4x4 by coefficients. -/
abbrev Matrix4x4 := Nat → Nat → ℚ

/-- An SCD::CD_Pair built from two shape proxies, named by handles. -/
structure CD_Pair where
  obj1 : Nat
  obj2 : Nat
deriving DecidableEq

/-- Configuration of one control cycle (rbd::MultiBodyConfig) together with the answers
of the external libraries at this configuration. -/
structure MultiBodyConfig where
  /-- Vector written by `rbd::paramToVector(mbc.alpha, alphaVec_)`. -/
  alpha : Nat → ℚ
  /-- World poses `mbc.bodyPosW`. -/
  bodyPosW : Nat → PTransform
  /-- Inertia matrix `fd_.H()` after `computeH`. -/
  H : Nat → Nat → ℚ
  /-- Bias vector `fd_.C()` after `computeC`. -/
  C : Nat → ℚ
  /-- Method `jac.jacobian(mb, mbc)`. -/
  jacobian : Jacobian → MatrixXd
  /-- Method `jac.jacobianDot(mb, mbc)`. -/
  jacobianDot : Jacobian → MatrixXd
  /-- Method `jac.translateJacobian(jac, mbc, point, res)`, the value left in `res`. -/
  translateJacobian : Jacobian → MatrixXd → Vector3d → MatrixXd
  /-- Method `jac.fullJacobian(mb, jac, res)`, the coefficients left in the
  `6 x mb.nrDof()` buffer `res`. -/
  fullJacobian : Jacobian → MatrixXd → Nat → Nat → ℚ
  /-- Method `pair->getClosestPoints(p1, p2)` once the two proxies carry the given
  transformations: returned value, `p1`, `p2`. -/
  getClosestPoints : CD_Pair → Matrix4x4 → Matrix4x4 → ℚ × Vector3d × Vector3d
  /-- Expression `(X.inv()*sva::PTransform(p)).translation()`. -/
  invMulPoint : PTransform → Vector3d → Vector3d
  /-- Function `std::sqrt`. -/
  sqrt : ℚ → ℚ

/-- Vector `alphaVec_` of size `mb.nrDof()`. -/
def alphaVec (mb : MultiBody) (mbc : MultiBodyConfig) : VectorXd := ⟨mb.nrDof, mbc.alpha⟩

/-- Buffer `fullJac_` (`6 x mb.nrDof()`) after `jac.fullJacobian(mb, m, fullJac_)`. -/
def fullJacobian (mb : MultiBody) (mbc : MultiBodyConfig) (jac : Jacobian) (m : MatrixXd) :
    MatrixXd :=
  ⟨6, mb.nrDof, mbc.fullJacobian jac m⟩

/-- Function `fromSCD` of QPConstr.cpp: homogeneous matrix of a transform. -/
def fromSCD (t : PTransform) : Matrix4x4 := fun i j =>
  if i < 3 then
    if j < 3 then t.rotation i j
    else if j = 3 then (if i = 0 then t.translation.x else if i = 1 then t.translation.y
      else t.translation.z)
    else 0
  else if i = 3 ∧ j = 3 then 1 else 0

/-! ## SelfCollisionConstr -/

/-- Record `SelfCollisionConstr::CollData`. -/
structure CollData where
  pair : CD_Pair
  normVecDist : Vector3d
  jacB1 : Jacobian
  jacB2 : Jacobian
  di : ℚ
  ds : ℚ
  damping : ℚ
  body1Id : Int
  body2Id : Int
  body1 : Nat
  body2 : Nat

/-- Constructor `CollData::CollData`. -/
def CollData.new (mb : MultiBody) (body1Id : Int) (body1 : Nat) (body2Id : Int) (body2 : Nat)
    (di ds damping : ℚ) : CollData :=
  { pair := ⟨body1, body2⟩
    normVecDist := Vector3d.zero
    jacB1 := Jacobian.new body1Id
    jacB2 := Jacobian.new body2Id
    di := di
    ds := ds
    damping := damping
    body1Id := body1Id
    body2Id := body2Id
    body1 := mb.bodyIndexById body1Id
    body2 := mb.bodyIndexById body2Id }

/-- State of a `SelfCollisionConstr`. -/
structure SelfCollisionConstr where
  dataVec : List CollData
  step : ℚ
  nrVars : Nat
  AInEq : MatrixXd
  BInEq : VectorXd

/-- Constructor `SelfCollisionConstr::SelfCollisionConstr(mb, step)`. -/
def SelfCollisionConstr.new (step : ℚ) : SelfCollisionConstr :=
  { dataVec := [], step := step, nrVars := 0, AInEq := MatrixXd.zero 0 0,
    BInEq := VectorXd.zero 0 }

/-- Method `addCollision`. -/
def SelfCollisionConstr.addCollision (mb : MultiBody) (s : SelfCollisionConstr)
    (body1Id : Int) (body1 : Nat) (body2Id : Int) (body2 : Nat) (di ds damping : ℚ) :
    SelfCollisionConstr :=
  { s with dataVec := s.dataVec ++ [CollData.new mb body1Id body1 body2Id body2 di ds damping] }

/-- The `find_if` followed by `erase` of `rmCollision`: drop the first pair with the
given body ids. -/
def eraseFirst (body1Id body2Id : Int) : List CollData → List CollData
  | [] => []
  | d :: ds =>
    if d.body1Id = body1Id ∧ d.body2Id = body2Id then ds
    else d :: eraseFirst body1Id body2Id ds

/-- Method `rmCollision`. -/
def SelfCollisionConstr.rmCollision (s : SelfCollisionConstr) (body1Id body2Id : Int) :
    SelfCollisionConstr :=
  { s with dataVec := eraseFirst body1Id body2Id s.dataVec }

/-- Method `reset`. -/
def SelfCollisionConstr.reset (s : SelfCollisionConstr) : SelfCollisionConstr :=
  { s with dataVec := [] }

/-- Method `updateNrVars`. -/
def SelfCollisionConstr.updateNrVars (s : SelfCollisionConstr) (alphaD lambda torque : Nat) :
    SelfCollisionConstr :=
  { s with nrVars := alphaD + lambda + torque }

/-- Method `nrInEqLine`. -/
def SelfCollisionConstr.nrInEqLine (s : SelfCollisionConstr) : Nat := s.dataVec.length

/-- Answer of the closest-points query of the pair at the world poses of its bodies. -/
def CollData.closest (mbc : MultiBodyConfig) (d : CollData) : ℚ × Vector3d × Vector3d :=
  mbc.getClosestPoints d.pair (fromSCD (mbc.bodyPosW d.body1)) (fromSCD (mbc.bodyPosW d.body2))

/-- Local `dist` of `update` after the signed square root. -/
def CollData.dist (mbc : MultiBodyConfig) (d : CollData) : ℚ :=
  if (d.closest mbc).1 ≥ 0 then mbc.sqrt (d.closest mbc).1 else -mbc.sqrt (-(d.closest mbc).1)

/-- Local `normVecDist` of `update`: `(pb1 - pb2)/dist` on the world-frame points. At
`dist = 0` the source divides by zero and the vector holds infinities or NaN, whereas
the quotient of `ℚ` is the zero vector: the value of this definition is the one of the
source for `dist ≠ 0` only, see `CollData.normalChecked`. -/
def CollData.normal (mbc : MultiBodyConfig) (d : CollData) : Vector3d :=
  ((d.closest mbc).2.1.sub (d.closest mbc).2.2).div (d.dist mbc)

/-- Local `pb1` of `update` after the change to the frame of body 1. -/
def CollData.pb1 (mbc : MultiBodyConfig) (d : CollData) : Vector3d :=
  mbc.invMulPoint (mbc.bodyPosW d.body1) (d.closest mbc).2.1

/-- Local `pb2` of `update` after the change to the frame of body 2. -/
def CollData.pb2 (mbc : MultiBodyConfig) (d : CollData) : Vector3d :=
  mbc.invMulPoint (mbc.bodyPosW d.body2) (d.closest mbc).2.2

/-- Object `d.jacB1` after `d.jacB1.point(pb1)`. -/
def CollData.jacB1At (mbc : MultiBodyConfig) (d : CollData) : Jacobian :=
  { d.jacB1 with point := d.pb1 mbc }

/-- Object `d.jacB2` after `d.jacB2.point(pb2)`. -/
def CollData.jacB2At (mbc : MultiBodyConfig) (d : CollData) : Jacobian :=
  { d.jacB2 with point := d.pb2 mbc }

/-- Buffer `fullJac_` in the "Compute body1" part. -/
def CollData.fullJac1 (mb : MultiBody) (mbc : MultiBodyConfig) (d : CollData) : MatrixXd :=
  fullJacobian mb mbc (d.jacB1At mbc) (mbc.jacobian (d.jacB1At mbc))

/-- Buffer `fullJacDot_` in the "Compute body1" part. -/
def CollData.fullJacDot1 (mb : MultiBody) (mbc : MultiBodyConfig) (d : CollData) : MatrixXd :=
  fullJacobian mb mbc (d.jacB1At mbc) (mbc.jacobianDot (d.jacB1At mbc))

/-- Buffer `fullJac_` in the "Compute body2" part. -/
def CollData.fullJac2 (mb : MultiBody) (mbc : MultiBodyConfig) (d : CollData) : MatrixXd :=
  fullJacobian mb mbc (d.jacB2At mbc) (mbc.jacobian (d.jacB2At mbc))

/-- Buffer `fullJacDot_` in the "Compute body2" part. -/
def CollData.fullJacDot2 (mb : MultiBody) (mbc : MultiBodyConfig) (d : CollData) : MatrixXd :=
  fullJacobian mb mbc (d.jacB2At mbc) (mbc.jacobianDot (d.jacB2At mbc))

/-- Local `dampers` of the active branch. -/
def CollData.dampers (mbc : MultiBodyConfig) (d : CollData) : ℚ :=
  d.damping * ((d.dist mbc - d.ds) / (d.di - d.ds))

/-- Local `dnf` of the active branch: `(nf - onf)/step_`. -/
def CollData.dnf (mbc : MultiBodyConfig) (step : ℚ) (d : CollData) : Vector3d :=
  ((d.normal mbc).sub d.normVecDist).div step

/-- Vector `calcVec_` at the end of the active branch: assigned in the body1 part, then
`+=` in the body2 part. -/
def CollData.calcVec (mb : MultiBody) (mbc : MultiBodyConfig) (step : ℚ) (d : CollData) :
    VectorXd :=
  let nf := d.normal mbc
  let calcVec := ((d.fullJac1 mb mbc).neg.transTMul nf).scale step
  calcVec.add (((d.fullJac2 mb mbc).transTMul nf).scale step)

/-- Value stored in `BInEq_(i)` by the active branch. The three locals are first
assigned in the body1 part and then assigned again in the body2 part. -/
def CollData.bound (mb : MultiBody) (mbc : MultiBodyConfig) (step : ℚ) (d : CollData) : ℚ :=
  let nf := d.normal mbc
  let dnf := d.dnf mbc step
  let a := alphaVec mb mbc
  -- Compute body1
  let jqdn := ((d.fullJac1 mb mbc).transMulVec a).dot nf
  let jqdnd := ((d.fullJac1 mb mbc).transMulVec a).dot dnf * step
  let jdqdn := ((d.fullJacDot1 mb mbc).transMulVec a).dot nf * step
  -- Compute body2
  let jqdn := -(((d.fullJac2 mb mbc).transMulVec a).dot nf)
  let jqdnd := -(((d.fullJac2 mb mbc).transMulVec a).dot dnf * step)
  let jdqdn := -(((d.fullJacDot2 mb mbc).transMulVec a).dot nf * step)
  d.dampers mbc + jqdn + jqdnd + jdqdn

/-- Body of the loop of `SelfCollisionConstr::update` for the pair `d` at row `i`. -/
def updatePair (mb : MultiBody) (mbc : MultiBodyConfig) (step : ℚ) (i : Nat) (d : CollData)
    (A : MatrixXd) (B : VectorXd) : Option (CollData × MatrixXd × VectorXd) :=
  if d.dist mbc < d.di then
    (A.assignBlock i 0 1 mb.nrDof (d.calcVec mb mbc step).transpose).bind fun A1 =>
    (B.set i (d.bound mb mbc step)).bind fun B1 =>
    some ({ d with jacB1 := d.jacB1At mbc, jacB2 := d.jacB2At mbc,
                   normVecDist := d.normal mbc }, A1, B1)
  else
    (A.setZeroBlock i 0 1 mb.nrDof).bind fun A1 =>
    (B.set i 0).bind fun B1 =>
    some ({ d with normVecDist := d.normal mbc }, A1, B1)

/-- The range-for loop of `SelfCollisionConstr::update` from row `i` on. -/
def updateLoop (mb : MultiBody) (mbc : MultiBodyConfig) (step : ℚ) :
    Nat → List CollData → MatrixXd → VectorXd → Option (List CollData × MatrixXd × VectorXd)
  | _, [], A, B => some ([], A, B)
  | i, d :: ds, A, B =>
    (updatePair mb mbc step i d A B).bind fun r =>
    (updateLoop mb mbc step (i + 1) ds r.2.1 r.2.2).bind fun r1 =>
    some (r.1 :: r1.1, r1.2.1, r1.2.2)

/-- Method `SelfCollisionConstr::update`. -/
def SelfCollisionConstr.update (mb : MultiBody) (mbc : MultiBodyConfig)
    (s : SelfCollisionConstr) : Option SelfCollisionConstr :=
  let resized := s.AInEq.rows ≠ s.dataVec.length ∨ s.AInEq.cols ≠ s.nrVars
  let A := if resized then MatrixXd.zero s.dataVec.length s.nrVars else s.AInEq
  let B := if resized then VectorXd.zero s.dataVec.length else s.BInEq
  (updateLoop mb mbc s.step 0 s.dataVec A B).bind fun r =>
  some { s with dataVec := r.1, AInEq := r.2.1, BInEq := r.2.2 }

/-- States a `SelfCollisionConstr` of the robot `mb` can be in. -/
inductive SelfCollisionConstr.Reachable (mb : MultiBody) : SelfCollisionConstr → Prop
  | init (step : ℚ) : Reachable mb (SelfCollisionConstr.new step)
  | addCollision {s : SelfCollisionConstr} (body1Id : Int) (body1 : Nat) (body2Id : Int)
      (body2 : Nat) (di ds damping : ℚ) :
      Reachable mb s → Reachable mb (s.addCollision mb body1Id body1 body2Id body2 di ds damping)
  | rmCollision {s : SelfCollisionConstr} (body1Id body2Id : Int) :
      Reachable mb s → Reachable mb (s.rmCollision body1Id body2Id)
  | reset {s : SelfCollisionConstr} : Reachable mb s → Reachable mb s.reset
  | updateNrVars {s : SelfCollisionConstr} (alphaD lambda torque : Nat) :
      Reachable mb s → Reachable mb (s.updateNrVars alphaD lambda torque)
  | update {s s1 : SelfCollisionConstr} (mbc : MultiBodyConfig) :
      Reachable mb s → s.update mb mbc = some s1 → Reachable mb s1

/-- Coefficient `c` of the row that one pass of the loop of `update` leaves in the DOF
columns for the pair `d`: `calcVec_` in the active branch, zero otherwise. -/
def CollData.row (mb : MultiBody) (mbc : MultiBodyConfig) (step : ℚ) (d : CollData)
    (c : Nat) : ℚ :=
  if d.dist mbc < d.di then (d.calcVec mb mbc step).coeff c else 0

/-- Value that one pass of the loop of `update` leaves in `BInEq_(i)` for the pair `d`. -/
def CollData.rhs (mb : MultiBody) (mbc : MultiBodyConfig) (step : ℚ) (d : CollData) : ℚ :=
  if d.dist mbc < d.di then d.bound mb mbc step else 0

/-- Dimensions of the output blocks: rows and columns of `AInEq`, size of `BInEq`. -/
def SelfCollisionConstr.blockDims (s : SelfCollisionConstr) : Nat × Nat × Nat :=
  (s.AInEq.rows, s.AInEq.cols, s.BInEq.size)

/-! ## MotionConstr -/

/-- The fields of a `Contact` the constraints read. -/
structure Contact where
  bodyId : Int
  points : List Vector3d
  normals : List Vector3d

/-- Record `MotionConstr::ContactData` (without the scratch buffer `transJac`). -/
structure MotionConstr.ContactData where
  jac : Jacobian
  points : List Vector3d
  normals : List Vector3d

/-- State of a `MotionConstr`. -/
structure MotionConstr where
  cont : List MotionConstr.ContactData
  AEq : MatrixXd
  BEq : VectorXd
  XL : List (WithTop ℚ)
  XU : List (WithTop ℚ)
  nrDof : Nat
  nrFor : Nat
  nrTor : Nat

/-- Constructor `MotionConstr::MotionConstr(mb)`. -/
def MotionConstr.new : MotionConstr :=
  { cont := [], AEq := MatrixXd.zero 0 0, BEq := VectorXd.zero 0, XL := [], XU := [],
    nrDof := 0, nrFor := 0, nrTor := 0 }

/-- Method `MotionConstr::updateNrVars`. -/
def MotionConstr.updateNrVars (s : MotionConstr) (alphaD lambda torque : Nat)
    (cont : List Contact) : MotionConstr :=
  { s with
    cont := cont.map fun c => ⟨Jacobian.new c.bodyId, c.points, c.normals⟩
    nrDof := alphaD
    nrFor := lambda
    nrTor := torque
    AEq := MatrixXd.zero alphaD (alphaD + lambda + torque)
    BEq := VectorXd.zero alphaD
    XL := List.replicate lambda 0
    XU := List.replicate lambda ⊤ }

/-- Buffer `fullJac_` inside the loop over the points of a contact: the Jacobian `jac` of the
contact body translated to the point `p`, expanded to all DOF columns. -/
def MotionConstr.pointJac (mb : MultiBody) (mbc : MultiBodyConfig) (jac : Jacobian)
    (p : Vector3d) : MatrixXd :=
  fullJacobian mb mbc jac (mbc.translateJacobian jac (mbc.jacobian jac) p)

/-- Loop over the points `j` of one contact in `MotionConstr::update`; `normals[j]` has
to exist. Returns the matrix and `contPos`. -/
def MotionConstr.pointLoop (mb : MultiBody) (mbc : MultiBodyConfig) (nrDof : Nat)
    (jac : Jacobian) :
    List Vector3d → List Vector3d → MatrixXd → Nat → Option (MatrixXd × Nat)
  | [], _, A, contPos => some (A, contPos)
  | _ :: _, [], _, _ => none
  | p :: ps, n :: ns, A, contPos =>
    (A.assignBlock 0 contPos nrDof 1
      ((MotionConstr.pointJac mb mbc jac p).neg.transTMul n).asMatrix).bind fun A1 =>
    MotionConstr.pointLoop mb mbc nrDof jac ps ns A1 (contPos + 1)

/-- Loop over the contacts in `MotionConstr::update`. -/
def MotionConstr.contLoop (mb : MultiBody) (mbc : MultiBodyConfig) (nrDof : Nat) :
    List MotionConstr.ContactData → MatrixXd → Nat → Option (MatrixXd × Nat)
  | [], A, contPos => some (A, contPos)
  | c :: cs, A, contPos =>
    (MotionConstr.pointLoop mb mbc nrDof c.jac c.points c.normals A contPos).bind fun r =>
    MotionConstr.contLoop mb mbc nrDof cs r.1 r.2

/-- Method `MotionConstr::update`. -/
def MotionConstr.update (mb : MultiBody) (mbc : MultiBodyConfig) (s : MotionConstr) :
    Option MotionConstr :=
  (s.AEq.assignBlock 0 0 s.nrDof s.nrDof ⟨mb.nrDof, mb.nrDof, mbc.H⟩).bind fun A1 =>
  (MotionConstr.contLoop mb mbc s.nrDof s.cont A1 s.nrDof).bind fun r =>
  (r.1.assignBlock mb.joint0Dof r.2 s.nrTor s.nrTor (MatrixXd.negIdentity s.nrTor)).bind
    fun A3 =>
  some { s with AEq := A3, BEq := (VectorXd.mk mb.nrDof mbc.C).neg }

/-- Method `MotionConstr::nrEqLine`. -/
def MotionConstr.nrEqLine (s : MotionConstr) : Nat := s.nrDof

/-- Method `MotionConstr::beginVar`. -/
def MotionConstr.beginVar (s : MotionConstr) : Nat := s.nrDof

/-- Method `MotionConstr::Lower`. -/
def MotionConstr.Lower (s : MotionConstr) : List (WithTop ℚ) := s.XL

/-- Method `MotionConstr::Upper`. -/
def MotionConstr.Upper (s : MotionConstr) : List (WithTop ℚ) := s.XU

/-- Number of points of a list of contacts: the number of force columns `update` writes. -/
def MotionConstr.nrPoints (cont : List MotionConstr.ContactData) : Nat :=
  (cont.map fun c => c.points.length).sum

/-! ## ContactAccConstr -/

/-- Record `ContactAccConstr::ContactData`. -/
structure ContactAccConstr.ContactData where
  jac : Jacobian

/-- State of a `ContactAccConstr`. -/
structure ContactAccConstr where
  cont : List ContactAccConstr.ContactData
  AEq : MatrixXd
  BEq : VectorXd
  nrDof : Nat
  nrFor : Nat
  nrTor : Nat

/-- Constructor `ContactAccConstr::ContactAccConstr(mb)`. -/
def ContactAccConstr.new : ContactAccConstr :=
  { cont := [], AEq := MatrixXd.zero 0 0, BEq := VectorXd.zero 0,
    nrDof := 0, nrFor := 0, nrTor := 0 }

/-- Method `ContactAccConstr::updateNrVars`. -/
def ContactAccConstr.updateNrVars (s : ContactAccConstr) (alphaD lambda torque : Nat)
    (cont : List Contact) : ContactAccConstr :=
  { s with
    cont := cont.map fun c => ⟨Jacobian.new c.bodyId⟩
    nrDof := alphaD
    nrFor := lambda
    nrTor := torque
    AEq := MatrixXd.zero (cont.length * 6) (alphaD + lambda + torque)
    BEq := VectorXd.zero (cont.length * 6) }

/-- Buffer `fullJac_` after the first `fullJacobian` call of the loop of
`ContactAccConstr::update`. -/
def ContactAccConstr.ContactData.fullJac (mb : MultiBody) (mbc : MultiBodyConfig)
    (c : ContactAccConstr.ContactData) : MatrixXd :=
  fullJacobian mb mbc c.jac (mbc.jacobian c.jac)

/-- Buffer `fullJac_` after the second `fullJacobian` call of the loop of
`ContactAccConstr::update`. -/
def ContactAccConstr.ContactData.fullJacDot (mb : MultiBody) (mbc : MultiBodyConfig)
    (c : ContactAccConstr.ContactData) : MatrixXd :=
  fullJacobian mb mbc c.jac (mbc.jacobianDot c.jac)

/-- Loop of `ContactAccConstr::update` from contact `i` on. -/
def ContactAccConstr.loop (mb : MultiBody) (mbc : MultiBodyConfig) :
    Nat → List ContactAccConstr.ContactData → MatrixXd → VectorXd →
      Option (MatrixXd × VectorXd)
  | _, [], A, B => some (A, B)
  | i, c :: cs, A, B =>
    (A.assignBlock (i * 6) 0 6 mb.nrDof (c.fullJac mb mbc)).bind fun A1 =>
    (B.assignSegment (i * 6) 6 ((c.fullJacDot mb mbc).neg.mulVec (alphaVec mb mbc))).bind
      fun B1 =>
    ContactAccConstr.loop mb mbc (i + 1) cs A1 B1

/-- Method `ContactAccConstr::update`. -/
def ContactAccConstr.update (mb : MultiBody) (mbc : MultiBodyConfig) (s : ContactAccConstr) :
    Option ContactAccConstr :=
  (ContactAccConstr.loop mb mbc 0 s.cont s.AEq s.BEq).bind fun r =>
  some { s with AEq := r.1, BEq := r.2 }

/-- Method `ContactAccConstr::nrEqLine`. -/
def ContactAccConstr.nrEqLine (s : ContactAccConstr) : Nat := s.AEq.rows

/-- States a `ContactAccConstr` of the robot `mb` can be in. -/
inductive ContactAccConstr.Reachable (mb : MultiBody) : ContactAccConstr → Prop
  | init : Reachable mb ContactAccConstr.new
  | updateNrVars {s : ContactAccConstr} (alphaD lambda torque : Nat) (cont : List Contact) :
      Reachable mb s → Reachable mb (s.updateNrVars alphaD lambda torque cont)
  | update {s s1 : ContactAccConstr} (mbc : MultiBodyConfig) :
      Reachable mb s → s.update mb mbc = some s1 → Reachable mb s1

/-! ## Example data -/

/-- A robot with one degree of freedom and no floating base. -/
def exMb : MultiBody := { nrDof := 1, joint0Dof := 0, bodyIndexById := fun id => id.toNat }

/-- The identity transform. -/
def exIdentity : PTransform := ⟨fun i j => if i = j then 1 else 0, Vector3d.zero⟩

/-- A configuration of `exMb` with unit velocity. Body 1 translates along `x` with the
joint (Jacobian and Jacobian derivative), body 2 does not move, body 3 translates along
`z`. Every pair of proxies is at squared distance 4, closest points `(2, 0, 0)` and the
origin. -/
def exMbc : MultiBodyConfig :=
  { alpha := fun _ => 1
    bodyPosW := fun _ => exIdentity
    H := fun _ _ => 1
    C := fun _ => 1 / 2
    jacobian := fun j =>
      ⟨6, 1, fun r _ => if (j.bodyId = 1 ∧ r = 3) ∨ (j.bodyId = 3 ∧ r = 5) then 1 else 0⟩
    jacobianDot := fun j => ⟨6, 1, fun r _ => if j.bodyId = 1 ∧ r = 3 then 1 else 0⟩
    translateJacobian := fun _ m _ => m
    fullJacobian := fun _ m => m.coeff
    getClosestPoints := fun _ _ _ => (4, ⟨2, 0, 0⟩, ⟨0, 0, 0⟩)
    invMulPoint := fun _ p => p
    sqrt := Rat.sqrt }

/-- The pair (body 1, body 2) with influence distance `di`, stopping distance 1 and
damping 1, as `addCollision` creates it. -/
def exPair (di : ℚ) : CollData := CollData.new exMb 1 0 2 1 di 1 1

/-- A constraint with time step `1/2` monitoring `exPair di`, laid out for one
acceleration variable. -/
def exColl (di : ℚ) : SelfCollisionConstr :=
  (((SelfCollisionConstr.new (1 / 2)).addCollision exMb 1 0 2 1 di 1 1).updateNrVars 1 0 0)

/-- The configuration `exMbc` at rest: zero generalized velocity. -/
def exMbcRest : MultiBodyConfig := { exMbc with alpha := fun _ => 0 }

/-- A contact of body 3 with one point at the origin and the normal `(0, 0, 1)`. -/
def exContact : Contact := ⟨3, [⟨0, 0, 0⟩], [⟨0, 0, 1⟩]⟩

/-- A `ContactAccConstr` laid out for `exContact` with one acceleration variable and one
force variable. -/
def exAcc : ContactAccConstr := ContactAccConstr.new.updateNrVars 1 1 0 [exContact]

/-- Total number of points of a list of contacts. -/
def Contact.nrPoints (cont : List Contact) : Nat := (cont.map fun c => c.points.length).sum

/-- The pair `d` after one pass of the loop of `update`: the stored normal is replaced in
both branches, the two Jacobian objects are re-targeted in the active branch only. -/
def CollData.next (mbc : MultiBodyConfig) (d : CollData) : CollData :=
  if d.dist mbc < d.di then
    { d with jacB1 := d.jacB1At mbc, jacB2 := d.jacB2At mbc, normVecDist := d.normal mbc }
  else { d with normVecDist := d.normal mbc }

/-- Value of the local `jqdn` of the active branch when `BInEq_(i)` is assigned. -/
def CollData.jqdn (mb : MultiBody) (mbc : MultiBodyConfig) (d : CollData) : ℚ :=
  -(((d.fullJac2 mb mbc).transMulVec (alphaVec mb mbc)).dot (d.normal mbc))

/-- Value of the local `jqdnd` of the active branch when `BInEq_(i)` is assigned. -/
def CollData.jqdnd (mb : MultiBody) (mbc : MultiBodyConfig) (step : ℚ) (d : CollData) : ℚ :=
  -(((d.fullJac2 mb mbc).transMulVec (alphaVec mb mbc)).dot (d.dnf mbc step) * step)

/-- Value of the local `jdqdn` of the active branch when `BInEq_(i)` is assigned. -/
def CollData.jdqdn (mb : MultiBody) (mbc : MultiBodyConfig) (step : ℚ) (d : CollData) : ℚ :=
  -(((d.fullJacDot2 mb mbc).transMulVec (alphaVec mb mbc)).dot (d.normal mbc) * step)

/-- The configuration `exMbc` with a Jacobian that depends on the point: body 3 translates
along `z`, body 4 turns about `x` (angular row 0), and `translateJacobian` adds the velocity
`omega x p` of the point `p` to the translational rows 3..5. -/
def exMbcTurn : MultiBodyConfig :=
  { exMbc with
    jacobian := fun j =>
      ⟨6, 1, fun r _ => if (j.bodyId = 3 ∧ r = 5) ∨ (j.bodyId = 4 ∧ r = 0) then 1 else 0⟩
    translateJacobian := fun _ m p =>
      ⟨6, m.cols, fun r c =>
        if r = 3 then m.coeff 3 c + (m.coeff 1 c * p.z - m.coeff 2 c * p.y)
        else if r = 4 then m.coeff 4 c + (m.coeff 2 c * p.x - m.coeff 0 c * p.z)
        else if r = 5 then m.coeff 5 c + (m.coeff 0 c * p.y - m.coeff 1 c * p.x)
        else m.coeff r c⟩ }

/-- A contact of body 4 with one point at `(0, 2, 0)` and the normal `(0, 0, 1)`. -/
def exContactTurn : Contact := ⟨4, [⟨0, 2, 0⟩], [⟨0, 0, 1⟩]⟩

/-- Quotient `a / b` of two finite doubles when it is a finite number. With a zero
divisor the source computes an infinity or a NaN, written `none`. -/
def divChecked (a b : ℚ) : Option ℚ := if b = 0 then none else some (a / b)

/-- Quotient `a / s` of a finite vector by a scalar when it is a finite vector. With
`s = 0` each of the three coefficients is an infinity or a NaN. -/
def Vector3d.divChecked (a : Vector3d) (s : ℚ) : Option Vector3d :=
  if s = 0 then none else some (a.div s)

/-- Local `normVecDist` of `update`, `(pb1 - pb2)/dist`, when it is a finite vector. -/
def CollData.normalChecked (mbc : MultiBodyConfig) (d : CollData) : Option Vector3d :=
  ((d.closest mbc).2.1.sub (d.closest mbc).2.2).divChecked (d.dist mbc)

/-- Local `dampers` of the active branch when it is a finite number. -/
def CollData.dampersChecked (mbc : MultiBodyConfig) (d : CollData) : Option ℚ :=
  (divChecked (d.dist mbc - d.ds) (d.di - d.ds)).bind fun q => some (d.damping * q)

/-- Value stored in `BInEq_(i)` by the active branch when it is a finite number, for a
finite stored previous normal. The three quotients of the branch are evaluated in the
order of the source: the normal, the damping term, the rate of the normal. An infinity
or a NaN stays one through the products with finite numbers and the sums that follow
(also `0*inf` and `inf - inf` are NaN), so the stored value is `none` as soon as one
quotient is. -/
def CollData.boundChecked (mb : MultiBody) (mbc : MultiBodyConfig) (step : ℚ)
    (d : CollData) : Option ℚ :=
  (d.normalChecked mbc).bind fun nf =>
  (d.dampersChecked mbc).bind fun dampers =>
  ((nf.sub d.normVecDist).divChecked step).bind fun dnf =>
  let a := alphaVec mb mbc
  -- Compute body1
  let jqdn := ((d.fullJac1 mb mbc).transMulVec a).dot nf
  let jqdnd := ((d.fullJac1 mb mbc).transMulVec a).dot dnf * step
  let jdqdn := ((d.fullJacDot1 mb mbc).transMulVec a).dot nf * step
  -- Compute body2
  let jqdn := -(((d.fullJac2 mb mbc).transMulVec a).dot nf)
  let jqdnd := -(((d.fullJac2 mb mbc).transMulVec a).dot dnf * step)
  let jdqdn := -(((d.fullJacDot2 mb mbc).transMulVec a).dot nf * step)
  some (dampers + jqdn + jqdnd + jdqdn)

/-- States a `SelfCollisionConstr` of the robot `mb` reaches when no pair was at distance
zero in an `update`: every stored previous normal is then the zero vector of the
constructor or a quotient by a non-zero distance, a finite vector. -/
inductive SelfCollisionConstr.ReachableFinite (mb : MultiBody) : SelfCollisionConstr → Prop
  | init (step : ℚ) : ReachableFinite mb (SelfCollisionConstr.new step)
  | addCollision {s : SelfCollisionConstr} (body1Id : Int) (body1 : Nat) (body2Id : Int)
      (body2 : Nat) (di ds damping : ℚ) :
      ReachableFinite mb s →
      ReachableFinite mb (s.addCollision mb body1Id body1 body2Id body2 di ds damping)
  | rmCollision {s : SelfCollisionConstr} (body1Id body2Id : Int) :
      ReachableFinite mb s → ReachableFinite mb (s.rmCollision body1Id body2Id)
  | reset {s : SelfCollisionConstr} : ReachableFinite mb s → ReachableFinite mb s.reset
  | updateNrVars {s : SelfCollisionConstr} (alphaD lambda torque : Nat) :
      ReachableFinite mb s → ReachableFinite mb (s.updateNrVars alphaD lambda torque)
  | update {s s1 : SelfCollisionConstr} (mbc : MultiBodyConfig) :
      ReachableFinite mb s → (∀ d ∈ s.dataVec, d.dist mbc ≠ 0) →
      s.update mb mbc = some s1 → ReachableFinite mb s1

/-- The configuration `exMbcRest` with the proxies at the stopping distance of `exPair`:
squared distance 1, closest points `(1, 0, 0)` and the origin. -/
def exMbcStop : MultiBodyConfig :=
  { exMbcRest with getClosestPoints := fun _ _ _ => (1, ⟨1, 0, 0⟩, ⟨0, 0, 0⟩) }

/-- The configuration `exMbcRest` with the proxies in touch: squared distance 0, both
closest points at the origin. -/
def exMbcTouch : MultiBodyConfig :=
  { exMbcRest with getClosestPoints := fun _ _ _ => (0, ⟨0, 0, 0⟩, ⟨0, 0, 0⟩) }

/-- The pair (body 1, body 2) with influence distance 3, stopping distance 0 and damping 1,
as `addCollision` creates it. -/
def exPairZero : CollData := CollData.new exMb 1 0 2 1 3 0 1

/-- A constraint with time step `1/2` monitoring `exPairZero`, laid out for one
acceleration variable. -/
def exCollZero : SelfCollisionConstr :=
  (((SelfCollisionConstr.new (1 / 2)).addCollision exMb 1 0 2 1 3 0 1).updateNrVars 1 0 0)

/-- A square root rounded to an integer: the integer square root of the argument rounded
up. It is non-negative, positive on positive arguments, non-decreasing, and exact at the
squares of integers. -/
def exSqrt (x : ℚ) : ℚ := (Nat.sqrt ⌈x⌉₊ : ℕ)

/-- The configuration `exMbc` with the square root `f` and the query value `s`. -/
def exMbcQuery (f : ℚ → ℚ) (s : ℚ) : MultiBodyConfig :=
  { exMbc with sqrt := f, getClosestPoints := fun _ _ _ => (s, ⟨2, 0, 0⟩, ⟨0, 0, 0⟩) }

/-! ## Theorems -/

/-! ### Dense linear algebra -/

theorem assignBlock_some {M : MatrixXd} {r c h w : Nat} {B M1 : MatrixXd}
    (hh : M.assignBlock r c h w B = some M1) :
    r + h ≤ M.rows ∧ c + w ≤ M.cols ∧ B.rows = h ∧ B.cols = w ∧
    M1.rows = M.rows ∧ M1.cols = M.cols ∧
    ∀ i j, M1.coeff i j =
      if r ≤ i ∧ i < r + h ∧ c ≤ j ∧ j < c + w then B.coeff (i - r) (j - c)
      else M.coeff i j := by
  unfold MatrixXd.assignBlock at hh
  split at hh
  · rename_i hc
    cases hh
    exact ⟨hc.1, hc.2.1, hc.2.2.1, hc.2.2.2, rfl, rfl, fun _ _ => rfl⟩
  · cases hh

theorem assignBlock_ok (M : MatrixXd) (r c h w : Nat) (B : MatrixXd)
    (h1 : r + h ≤ M.rows) (h2 : c + w ≤ M.cols) (h3 : B.rows = h) (h4 : B.cols = w) :
    M.assignBlock r c h w B = some (M.withBlock r c h w B) := by
  unfold MatrixXd.assignBlock
  rw [if_pos ⟨h1, h2, h3, h4⟩]

theorem set_some {v v1 : VectorXd} {i : Nat} {a : ℚ} (hh : v.set i a = some v1) :
    i < v.size ∧ v1.size = v.size ∧ ∀ k, v1.coeff k = if k = i then a else v.coeff k := by
  unfold VectorXd.set at hh
  split at hh
  · rename_i hc
    cases hh
    exact ⟨hc, rfl, fun _ => rfl⟩
  · cases hh

theorem set_ok (v : VectorXd) (i : Nat) (a : ℚ) (h : i < v.size) :
    v.set i a = some { v with coeff := fun k => if k = i then a else v.coeff k } := by
  unfold VectorXd.set
  rw [if_pos h]

/-! ### SelfCollisionConstr: the loop of `update` -/

theorem updatePair_bounds {mb : MultiBody} {mbc : MultiBodyConfig} {step : ℚ} {i : Nat}
    {d : CollData} {A : MatrixXd} {B : VectorXd} {r : CollData × MatrixXd × VectorXd}
    (h : updatePair mb mbc step i d A B = some r) :
    i < A.rows ∧ mb.nrDof ≤ A.cols ∧ i < B.size := by
  unfold updatePair at h
  split at h
  · obtain ⟨A1, hA, h⟩ := Option.bind_eq_some.1 h
    obtain ⟨B1, hB, _⟩ := Option.bind_eq_some.1 h
    have := assignBlock_some hA
    have := set_some hB
    omega
  · obtain ⟨A1, hA, h⟩ := Option.bind_eq_some.1 h
    obtain ⟨B1, hB, _⟩ := Option.bind_eq_some.1 h
    have := assignBlock_some hA
    have := set_some hB
    omega

theorem updatePair_spec (mb : MultiBody) (mbc : MultiBodyConfig) (step : ℚ) (i : Nat)
    (d : CollData) (A : MatrixXd) (B : VectorXd)
    (h1 : i < A.rows) (h2 : mb.nrDof ≤ A.cols) (h3 : i < B.size) :
    ∃ r, updatePair mb mbc step i d A B = some r ∧
      r.2.1.rows = A.rows ∧ r.2.1.cols = A.cols ∧ r.2.2.size = B.size ∧
      (∀ a c, r.2.1.coeff a c =
        if a = i ∧ c < mb.nrDof then d.row mb mbc step c else A.coeff a c) ∧
      (∀ a, r.2.2.coeff a = if a = i then d.rhs mb mbc step else B.coeff a) := by
  have h1s : i + 1 ≤ A.rows := h1
  have h2s : 0 + mb.nrDof ≤ A.cols := by omega
  have hin : ∀ a c, (i ≤ a ∧ a < i + 1 ∧ 0 ≤ c ∧ c < 0 + mb.nrDof) ↔ (a = i ∧ c < mb.nrDof) := by
    intro a c; omega
  unfold updatePair
  split
  · rename_i hact
    rw [assignBlock_ok _ _ _ _ _ _ h1s h2s rfl rfl, set_ok _ _ _ h3]
    refine ⟨_, rfl, rfl, rfl, rfl, fun a c => ?_, fun a => ?_⟩
    · simp only [MatrixXd.withBlock, CollData.row, if_pos hact, VectorXd.transpose, hin]
      by_cases hc : a = i ∧ c < mb.nrDof
      · rw [if_pos hc, if_pos hc, Nat.sub_zero]
      · rw [if_neg hc, if_neg hc]
    · simp only [CollData.rhs, if_pos hact]
  · rename_i hact
    unfold MatrixXd.setZeroBlock
    rw [assignBlock_ok _ _ _ _ _ _ h1s h2s rfl rfl, set_ok _ _ _ h3]
    refine ⟨_, rfl, rfl, rfl, rfl, fun a c => ?_, fun a => ?_⟩
    · simp only [MatrixXd.withBlock, CollData.row, if_neg hact, MatrixXd.zero, hin]
    · simp only [CollData.rhs, if_neg hact]

theorem updateLoop_frame (mb : MultiBody) (mbc : MultiBodyConfig) (step : ℚ) :
    ∀ (l : List CollData) (i : Nat) (A : MatrixXd) (B : VectorXd)
      (r : List CollData × MatrixXd × VectorXd),
      updateLoop mb mbc step i l A B = some r →
      r.2.1.rows = A.rows ∧ r.2.1.cols = A.cols ∧ r.2.2.size = B.size ∧
      r.1.length = l.length ∧
      ∀ a c, mb.nrDof ≤ c → r.2.1.coeff a c = A.coeff a c := by
  intro l
  induction l with
  | nil =>
    intro i A B r h
    simp [updateLoop] at h
    subst h
    simp
  | cons d ds ih =>
    intro i A B r h
    simp only [updateLoop] at h
    obtain ⟨r0, h0, h⟩ := Option.bind_eq_some.1 h
    obtain ⟨r1, h1, h⟩ := Option.bind_eq_some.1 h
    cases h
    obtain ⟨b1, b2, b3⟩ := updatePair_bounds h0
    obtain ⟨r0s, e0, p1, p2, p3, p4, _⟩ := updatePair_spec mb mbc step i d A B b1 b2 b3
    rw [h0] at e0
    cases e0
    obtain ⟨q1, q2, q3, q4, q5⟩ := ih (i + 1) r0.2.1 r0.2.2 r1 h1
    refine ⟨by simp [q1, p1], by simp [q2, p2], by simp [q3, p3], by simp [q4], ?_⟩
    intro a c hc
    have hlt : ¬ c < mb.nrDof := by omega
    simp [q5 a c hc, p4 a c, hlt]

theorem updateLoop_spec (mb : MultiBody) (mbc : MultiBodyConfig) (step : ℚ) :
    ∀ (l : List CollData) (i : Nat) (A : MatrixXd) (B : VectorXd),
      i + l.length ≤ A.rows → mb.nrDof ≤ A.cols → i + l.length ≤ B.size →
      ∃ r, updateLoop mb mbc step i l A B = some r ∧
        (∀ a c, a < i → r.2.1.coeff a c = A.coeff a c) ∧
        (∀ a, a < i → r.2.2.coeff a = B.coeff a) ∧
        (∀ k d, l[k]? = some d →
          (∀ c, c < mb.nrDof → r.2.1.coeff (i + k) c = d.row mb mbc step c) ∧
          r.2.2.coeff (i + k) = d.rhs mb mbc step) := by
  intro l
  induction l with
  | nil =>
    intro i A B _ _ _
    exact ⟨([], A, B), rfl, fun _ _ _ => rfl, fun _ _ => rfl, by simp⟩
  | cons d ds ih =>
    intro i A B hA hc hB
    simp only [List.length_cons] at hA hB
    obtain ⟨r0, e0, p1, p2, p3, p4, p5⟩ :=
      updatePair_spec mb mbc step i d A B (by omega) hc (by omega)
    obtain ⟨r1, e1, f1, f2, f3⟩ :=
      ih (i + 1) r0.2.1 r0.2.2 (by omega) (by omega) (by omega)
    refine ⟨(r0.1 :: r1.1, r1.2.1, r1.2.2), by simp [updateLoop, e0, e1], ?_, ?_, ?_⟩
    · intro a c ha
      have hne : ¬ a = i := by omega
      simp [f1 a c (by omega), p4 a c, hne]
    · intro a ha
      have hne : ¬ a = i := by omega
      simp [f2 a (by omega), p5 a, hne]
    · intro k e hk
      cases k with
      | zero =>
        simp at hk
        subst hk
        refine ⟨fun c hcl => ?_, ?_⟩
        · simp [f1 i c (by omega), p4 i c, hcl]
        · simp [f2 i (by omega), p5 i]
      | succ k =>
        simp at hk
        have := f3 k e hk
        have hik : i + (k + 1) = i + 1 + k := by omega
        rw [hik]
        exact this

theorem selfCollision_reachable_inv {mb : MultiBody} {s : SelfCollisionConstr}
    (h : SelfCollisionConstr.Reachable mb s) :
    s.BInEq.size = s.AInEq.rows ∧ ∀ a c, mb.nrDof ≤ c → s.AInEq.coeff a c = 0 := by
  induction h with
  | init step => simp [SelfCollisionConstr.new, MatrixXd.zero, VectorXd.zero]
  | addCollision _ _ _ _ _ _ _ _ ih => simpa [SelfCollisionConstr.addCollision] using ih
  | rmCollision _ _ _ ih => simpa [SelfCollisionConstr.rmCollision] using ih
  | reset _ ih => simpa [SelfCollisionConstr.reset] using ih
  | updateNrVars _ _ _ _ ih => simpa [SelfCollisionConstr.updateNrVars] using ih
  | @update s0 s1 mbc _ hu ih =>
    unfold SelfCollisionConstr.update at hu
    obtain ⟨r, hr, hs⟩ := Option.bind_eq_some.1 hu
    cases hs
    obtain ⟨q1, _, q3, _, q5⟩ := updateLoop_frame mb mbc s0.step _ _ _ _ r hr
    by_cases hres : s0.AInEq.rows ≠ s0.dataVec.length ∨ s0.AInEq.cols ≠ s0.nrVars
    · simp only [hres, if_true] at q1 q3 q5
      refine ⟨by simp [q1, q3, MatrixXd.zero, VectorXd.zero], fun a c hc => ?_⟩
      simp [q5 a c hc, MatrixXd.zero]
    · simp only [hres, if_false] at q1 q3 q5
      refine ⟨by simp [q1, q3, ih.1], fun a c hc => ?_⟩
      simp [q5 a c hc, ih.2 a c hc]

theorem selfCollision_update_spec {mb : MultiBody} {s : SelfCollisionConstr}
    (hs : SelfCollisionConstr.Reachable mb s) (mbc : MultiBodyConfig)
    (hdof : mb.nrDof ≤ s.nrVars) :
    ∃ s1, s.update mb mbc = some s1 ∧
      s1.AInEq.rows = s.dataVec.length ∧ s1.AInEq.cols = s.nrVars ∧
      s1.BInEq.size = s.dataVec.length ∧
      ∀ i d, s.dataVec[i]? = some d →
        (∀ c, c < mb.nrDof → s1.AInEq.coeff i c = d.row mb mbc s.step c) ∧
        (∀ c, mb.nrDof ≤ c → s1.AInEq.coeff i c = 0) ∧
        s1.BInEq.coeff i = d.rhs mb mbc s.step := by
  obtain ⟨i1, i2⟩ := selfCollision_reachable_inv hs
  unfold SelfCollisionConstr.update
  by_cases hres : s.AInEq.rows ≠ s.dataVec.length ∨ s.AInEq.cols ≠ s.nrVars
  · simp only [hres, if_true]
    obtain ⟨r, e, _, _, f3⟩ := updateLoop_spec mb mbc s.step s.dataVec 0
      (MatrixXd.zero s.dataVec.length s.nrVars) (VectorXd.zero s.dataVec.length)
      (by simp [MatrixXd.zero]) (by simpa [MatrixXd.zero] using hdof) (by simp [VectorXd.zero])
    obtain ⟨q1, q2, q3, _, q5⟩ := updateLoop_frame mb mbc s.step _ _ _ _ r e
    refine ⟨_, by rw [e]; rfl, by simpa [MatrixXd.zero] using q1,
      by simpa [MatrixXd.zero] using q2, by simpa [VectorXd.zero] using q3, ?_⟩
    intro i d hd
    have := f3 i d hd
    simp only [Nat.zero_add] at this
    exact ⟨this.1, fun c hc => by simp [q5 i c hc, MatrixXd.zero], this.2⟩
  · simp only [hres, if_false]
    have hr : s.AInEq.rows = s.dataVec.length := by
      by_contra hne; exact hres (Or.inl hne)
    have hc : s.AInEq.cols = s.nrVars := by
      by_contra hne; exact hres (Or.inr hne)
    obtain ⟨r, e, _, _, f3⟩ := updateLoop_spec mb mbc s.step s.dataVec 0 s.AInEq s.BInEq
      (by omega) (by omega) (by omega)
    obtain ⟨q1, q2, q3, _, q5⟩ := updateLoop_frame mb mbc s.step _ _ _ _ r e
    refine ⟨_, by rw [e]; rfl, by simpa [hr] using q1, by simpa [hc] using q2,
      by simp only [q3]; omega, ?_⟩
    intro i d hd
    have := f3 i d hd
    simp only [Nat.zero_add] at this
    exact ⟨this.1, fun c hc => by simp [q5 i c hc, i2 i c hc], this.2⟩

/-! ### SelfCollisionConstr: the claims -/

/-- C1. Inactive region of `SelfCollisionConstr::update`: in every state the constraint
can be in, with `mb.nrDof() <= nrVars`, `update` succeeds and for every monitored pair
`i` whose signed distance satisfies `d >= di` the whole row `i` of `AInEq` (all `nrVars`
columns) is zero and `BInEq(i) = 0`, whatever the velocity, the Jacobians, the
closest points and the stored previous normal are. -/
theorem selfCollision_inactive_row_zero (mb : MultiBody) (s : SelfCollisionConstr)
    (hs : SelfCollisionConstr.Reachable mb s) (mbc : MultiBodyConfig)
    (hdof : mb.nrDof ≤ s.nrVars) :
    ∃ s1, s.update mb mbc = some s1 ∧
      s1.AInEq.rows = s.nrInEqLine ∧ s1.AInEq.cols = s.nrVars ∧
      ∀ i d, s.dataVec[i]? = some d → d.di ≤ d.dist mbc →
        (∀ c, c < s.nrVars → s1.AInEq.coeff i c = 0) ∧ s1.BInEq.coeff i = 0 := by
  obtain ⟨s1, e, r1, r2, _, f⟩ := selfCollision_update_spec hs mbc hdof
  refine ⟨s1, e, r1, r2, fun i d hd hfar => ?_⟩
  obtain ⟨f1, f2, f3⟩ := f i d hd
  have hna : ¬ d.dist mbc < d.di := not_lt.2 hfar
  refine ⟨fun c _ => ?_, by rw [f3, CollData.rhs, if_neg hna]⟩
  by_cases hc : c < mb.nrDof
  · rw [f1 c hc, CollData.row, if_neg hna]
  · exact f2 c (by omega)

theorem exColl_reachable (di : ℚ) : SelfCollisionConstr.Reachable exMb (exColl di) :=
  .updateNrVars 1 0 0 (.addCollision 1 0 2 1 di 1 1 (.init (1 / 2)))

theorem exPair_dist (di : ℚ) : (exPair di).dist exMbc = 2 := by
  norm_num [CollData.dist, CollData.closest, exMbc, Rat.sqrt]

theorem exPair_normal (di : ℚ) : (exPair di).normal exMbc = ⟨1, 0, 0⟩ := by
  norm_num [CollData.normal, CollData.dist, CollData.closest, exMbc, Rat.sqrt, Vector3d.sub,
    Vector3d.div]

/-- Witness of C1: the pair of `exColl (3/2)` is at distance `2 >= 3/2`; after `update`
its row and its bound are zero. -/
theorem selfCollision_inactive_row_zero_witness :
    SelfCollisionConstr.Reachable exMb (exColl (3 / 2)) ∧
    exMb.nrDof ≤ (exColl (3 / 2)).nrVars ∧
    (exColl (3 / 2)).dataVec[0]? = some (exPair (3 / 2)) ∧
    (exPair (3 / 2)).di ≤ (exPair (3 / 2)).dist exMbc ∧
    ∃ s1, (exColl (3 / 2)).update exMb exMbc = some s1 ∧
      s1.AInEq.rows = 1 ∧ s1.AInEq.cols = 1 ∧
      s1.AInEq.coeff 0 0 = 0 ∧ s1.BInEq.coeff 0 = 0 := by
  have hfar : (exPair (3 / 2)).di ≤ (exPair (3 / 2)).dist exMbc := by
    rw [exPair_dist]; norm_num [exPair, CollData.new]
  refine ⟨exColl_reachable _, by decide, rfl, hfar, ?_⟩
  obtain ⟨s1, e, r1, r2, f⟩ :=
    selfCollision_inactive_row_zero exMb (exColl (3 / 2)) (exColl_reachable _) exMbc (by decide)
  exact ⟨s1, e, r1, r2, (f 0 (exPair (3 / 2)) rfl hfar).1 0 (by decide),
    (f 0 (exPair (3 / 2)) rfl hfar).2⟩

/-- C2, counterexample. With time step `1/2`, normal `(1, 0, 0)`, body 1 moving along `x`
(translational Jacobian coefficient 1) and body 2 fixed, the pair is active (`2 < 3`) and
`update` stores `-1/2` in the row, whereas `step * n^T * (Jt1 - Jt2)` is `+1/2`. -/
theorem selfCollision_active_row_sign_counterexample :
    (exColl 3).dataVec[0]? = some (exPair 3) ∧
    (exPair 3).dist exMbc < (exPair 3).di ∧
    ∃ s1, (exColl 3).update exMb exMbc = some s1 ∧
      s1.AInEq.coeff 0 0 = -1 / 2 ∧
      (exColl 3).step *
        (((exPair 3).normal exMbc).x *
            (((exPair 3).fullJac1 exMb exMbc).coeff 3 0 - ((exPair 3).fullJac2 exMb exMbc).coeff 3 0) +
          ((exPair 3).normal exMbc).y *
            (((exPair 3).fullJac1 exMb exMbc).coeff 4 0 - ((exPair 3).fullJac2 exMb exMbc).coeff 4 0) +
          ((exPair 3).normal exMbc).z *
            (((exPair 3).fullJac1 exMb exMbc).coeff 5 0 - ((exPair 3).fullJac2 exMb exMbc).coeff 5 0))
        = 1 / 2 := by
  have hact : (exPair 3).dist exMbc < (exPair 3).di := by
    rw [exPair_dist]; norm_num [exPair, CollData.new]
  refine ⟨rfl, hact, ?_⟩
  obtain ⟨s1, e, _, _, _, f⟩ :=
    selfCollision_update_spec (exColl_reachable 3) exMbc (by decide)
  refine ⟨s1, e, ?_, ?_⟩
  · rw [(f 0 (exPair 3) rfl).1 0 (by decide), CollData.row, if_pos hact]
    simp only [CollData.calcVec, VectorXd.add, VectorXd.scale, MatrixXd.neg,
      MatrixXd.transTMul, exPair_normal]
    norm_num [CollData.fullJac1, CollData.fullJac2, fullJacobian, exMbc, exPair, CollData.new,
      CollData.jacB1At, CollData.jacB2At, Jacobian.new, exColl,
      SelfCollisionConstr.updateNrVars, SelfCollisionConstr.addCollision,
      SelfCollisionConstr.new]
  · rw [exPair_normal]
    norm_num [CollData.fullJac1, CollData.fullJac2, fullJacobian, exMbc, exPair, CollData.new,
      CollData.jacB1At, CollData.jacB2At, Jacobian.new, exColl,
      SelfCollisionConstr.updateNrVars, SelfCollisionConstr.addCollision,
      SelfCollisionConstr.new]

/-- C2, amended. Active region of `SelfCollisionConstr::update`: in every state the
constraint can be in, with `mb.nrDof() <= nrVars`, `update` succeeds and for every
monitored pair `i` with `d < di` the DOF columns of row `i` of `AInEq` equal
`-step * n^T * (Jt1 - Jt2)`, that is `step * n^T * (Jt2 - Jt1)`, where `Jt1`, `Jt2` are
rows 3..5 of the full Jacobians of body 1 and body 2 at their closest points and `n` is
this cycle's normal; the remaining columns of the row are zero. -/
theorem selfCollision_active_row (mb : MultiBody) (s : SelfCollisionConstr)
    (hs : SelfCollisionConstr.Reachable mb s) (mbc : MultiBodyConfig)
    (hdof : mb.nrDof ≤ s.nrVars) :
    ∃ s1, s.update mb mbc = some s1 ∧
      ∀ i d, s.dataVec[i]? = some d → d.dist mbc < d.di →
        (∀ c, c < mb.nrDof → s1.AInEq.coeff i c =
          -(s.step *
            ((d.normal mbc).x * ((d.fullJac1 mb mbc).coeff 3 c - (d.fullJac2 mb mbc).coeff 3 c) +
             (d.normal mbc).y * ((d.fullJac1 mb mbc).coeff 4 c - (d.fullJac2 mb mbc).coeff 4 c) +
             (d.normal mbc).z * ((d.fullJac1 mb mbc).coeff 5 c - (d.fullJac2 mb mbc).coeff 5 c)))) ∧
        (∀ c, mb.nrDof ≤ c → s1.AInEq.coeff i c = 0) := by
  obtain ⟨s1, e, _, _, _, f⟩ := selfCollision_update_spec hs mbc hdof
  refine ⟨s1, e, fun i d hd hact => ?_⟩
  obtain ⟨f1, f2, _⟩ := f i d hd
  refine ⟨fun c hc => ?_, f2⟩
  rw [f1 c hc, CollData.row, if_pos hact]
  simp only [CollData.calcVec, VectorXd.add, VectorXd.scale, MatrixXd.neg, MatrixXd.transTMul]
  ring

/-- Witness of the amended C2 at `exColl 3`: the row coefficient is `-1/2`. -/
theorem selfCollision_active_row_witness :
    SelfCollisionConstr.Reachable exMb (exColl 3) ∧
    exMb.nrDof ≤ (exColl 3).nrVars ∧
    (exColl 3).dataVec[0]? = some (exPair 3) ∧
    (exPair 3).dist exMbc < (exPair 3).di ∧
    ∃ s1, (exColl 3).update exMb exMbc = some s1 ∧ s1.AInEq.coeff 0 0 = -1 / 2 := by
  have hact : (exPair 3).dist exMbc < (exPair 3).di := by
    rw [exPair_dist]; norm_num [exPair, CollData.new]
  refine ⟨exColl_reachable _, by decide, rfl, hact, ?_⟩
  obtain ⟨s1, e, f⟩ :=
    selfCollision_active_row exMb (exColl 3) (exColl_reachable _) exMbc (by decide)
  refine ⟨s1, e, ?_⟩
  rw [(f 0 (exPair 3) rfl hact).1 0 (by decide), exPair_normal]
  norm_num [CollData.fullJac1, CollData.fullJac2, fullJacobian, exMbc, exPair, CollData.new,
    CollData.jacB1At, CollData.jacB2At, Jacobian.new, exColl,
    SelfCollisionConstr.updateNrVars, SelfCollisionConstr.addCollision,
    SelfCollisionConstr.new]

/-- The bound of the active branch holds the damping term and the three terms of body 2
only: the values computed for body 1 are overwritten. -/
theorem CollData.bound_eq (mb : MultiBody) (mbc : MultiBodyConfig) (step : ℚ) (d : CollData) :
    d.bound mb mbc step =
      d.dampers mbc
        - ((d.fullJac2 mb mbc).transMulVec (alphaVec mb mbc)).dot (d.normal mbc)
        - ((d.fullJac2 mb mbc).transMulVec (alphaVec mb mbc)).dot (d.dnf mbc step) * step
        - ((d.fullJacDot2 mb mbc).transMulVec (alphaVec mb mbc)).dot (d.normal mbc) * step := by
  simp only [CollData.bound]
  ring

/-- C3, the code at the failing input. Pair `exPair 3` (active, `d = 2 < 3`), time step
`1/2`, unit velocity, stored previous normal zero. The three terms of body 1 are
`jqdn = 1`, `jqdnd = 1`, `jdqdn = 1/2`, those of body 2 are all `0`, the damping term is
`1/2`; `update` stores `BInEq(0) = 1/2`, the damping term alone: the terms of body 1 do
not enter the bound. -/
theorem selfCollision_bound_drops_body1 :
    (exColl 3).dataVec[0]? = some (exPair 3) ∧
    (exPair 3).dist exMbc < (exPair 3).di ∧
    (exPair 3).dampers exMbc = 1 / 2 ∧
    (((exPair 3).fullJac1 exMb exMbc).transMulVec (alphaVec exMb exMbc)).dot
      ((exPair 3).normal exMbc) = 1 ∧
    (((exPair 3).fullJac1 exMb exMbc).transMulVec (alphaVec exMb exMbc)).dot
      ((exPair 3).dnf exMbc (1 / 2)) * (1 / 2) = 1 ∧
    (((exPair 3).fullJacDot1 exMb exMbc).transMulVec (alphaVec exMb exMbc)).dot
      ((exPair 3).normal exMbc) * (1 / 2) = 1 / 2 ∧
    (((exPair 3).fullJac2 exMb exMbc).transMulVec (alphaVec exMb exMbc)).dot
      ((exPair 3).normal exMbc) = 0 ∧
    (((exPair 3).fullJac2 exMb exMbc).transMulVec (alphaVec exMb exMbc)).dot
      ((exPair 3).dnf exMbc (1 / 2)) * (1 / 2) = 0 ∧
    (((exPair 3).fullJacDot2 exMb exMbc).transMulVec (alphaVec exMb exMbc)).dot
      ((exPair 3).normal exMbc) * (1 / 2) = 0 ∧
    ∃ s1, (exColl 3).update exMb exMbc = some s1 ∧ s1.BInEq.coeff 0 = 1 / 2 := by
  have hact : (exPair 3).dist exMbc < (exPair 3).di := by
    rw [exPair_dist]; norm_num [exPair, CollData.new]
  have hdamp : (exPair 3).dampers exMbc = 1 / 2 := by
    rw [CollData.dampers, exPair_dist]; norm_num [exPair, CollData.new]
  have hdnf : (exPair 3).dnf exMbc (1 / 2) = ⟨2, 0, 0⟩ := by
    rw [CollData.dnf, exPair_normal]
    norm_num [exPair, CollData.new, Vector3d.sub, Vector3d.div, Vector3d.zero]
  have h1 : ((exPair 3).fullJac1 exMb exMbc).transMulVec (alphaVec exMb exMbc) = ⟨1, 0, 0⟩ := by
    norm_num [MatrixXd.transMulVec, CollData.fullJac1, fullJacobian, alphaVec, exMb, exMbc,
      exPair, CollData.new, CollData.jacB1At, Jacobian.new]
  have h1d : ((exPair 3).fullJacDot1 exMb exMbc).transMulVec (alphaVec exMb exMbc)
      = ⟨1, 0, 0⟩ := by
    norm_num [MatrixXd.transMulVec, CollData.fullJacDot1, fullJacobian, alphaVec, exMb, exMbc,
      exPair, CollData.new, CollData.jacB1At, Jacobian.new]
  have h2 : ((exPair 3).fullJac2 exMb exMbc).transMulVec (alphaVec exMb exMbc) = ⟨0, 0, 0⟩ := by
    norm_num [MatrixXd.transMulVec, CollData.fullJac2, fullJacobian, alphaVec, exMb, exMbc,
      exPair, CollData.new, CollData.jacB2At, Jacobian.new]
  have h2d : ((exPair 3).fullJacDot2 exMb exMbc).transMulVec (alphaVec exMb exMbc)
      = ⟨0, 0, 0⟩ := by
    norm_num [MatrixXd.transMulVec, CollData.fullJacDot2, fullJacobian, alphaVec, exMb, exMbc,
      exPair, CollData.new, CollData.jacB2At, Jacobian.new]
  refine ⟨rfl, hact, hdamp, ?_, ?_, ?_, ?_, ?_, ?_, ?_⟩
  · rw [h1, exPair_normal]; norm_num [Vector3d.dot]
  · rw [h1, hdnf]; norm_num [Vector3d.dot]
  · rw [h1d, exPair_normal]; norm_num [Vector3d.dot]
  · rw [h2, exPair_normal]; norm_num [Vector3d.dot]
  · rw [h2, hdnf]; norm_num [Vector3d.dot]
  · rw [h2d, exPair_normal]; norm_num [Vector3d.dot]
  · obtain ⟨s1, e, _, _, _, f⟩ :=
      selfCollision_update_spec (exColl_reachable 3) exMbc (by decide)
    refine ⟨s1, e, ?_⟩
    have hstep : (exColl 3).step = 1 / 2 := rfl
    rw [(f 0 (exPair 3) rfl).2.2, CollData.rhs, if_pos hact, CollData.bound_eq, hstep, hdamp,
      h2, h2d, hdnf, exPair_normal]
    norm_num [Vector3d.dot]

/-! ### SelfCollisionConstr: adding and removing a pair -/

theorem eraseFirst_append_length (b1 b2 : Int) (d : CollData)
    (hd : d.body1Id = b1 ∧ d.body2Id = b2) :
    ∀ l : List CollData, (eraseFirst b1 b2 (l ++ [d])).length = l.length := by
  intro l
  induction l with
  | nil => simp [eraseFirst, hd]
  | cons e es ih =>
    by_cases he : e.body1Id = b1 ∧ e.body2Id = b2
    · simp [eraseFirst, he]
    · simp [eraseFirst, he, ih]

theorem updateLoop_bounds (mb : MultiBody) (mbc : MultiBodyConfig) (step : ℚ) :
    ∀ (l : List CollData) (i : Nat) (A : MatrixXd) (B : VectorXd)
      (r : List CollData × MatrixXd × VectorXd),
      updateLoop mb mbc step i l A B = some r →
      l.length = 0 ∨ (i + l.length ≤ A.rows ∧ mb.nrDof ≤ A.cols ∧ i + l.length ≤ B.size) := by
  intro l
  induction l with
  | nil => intro i A B r _; exact Or.inl rfl
  | cons d ds ih =>
    intro i A B r h
    simp only [updateLoop] at h
    obtain ⟨r0, h0, h⟩ := Option.bind_eq_some.1 h
    obtain ⟨r1, h1, _⟩ := Option.bind_eq_some.1 h
    obtain ⟨b1, b2, b3⟩ := updatePair_bounds h0
    obtain ⟨r0s, e0, p1, p2, p3, _, _⟩ := updatePair_spec mb mbc step i d A B b1 b2 b3
    rw [h0] at e0
    cases e0
    right
    simp only [List.length_cons]
    rcases ih (i + 1) r0.2.1 r0.2.2 r1 h1 with hz | ⟨c1, _, c3⟩
    · omega
    · omega

theorem updateLoop_dims (mb : MultiBody) (mbc : MultiBodyConfig) (step : ℚ)
    (l : List CollData) (i : Nat) (A : MatrixXd) (B : VectorXd) :
    (updateLoop mb mbc step i l A B).map (fun r => (r.2.1.rows, r.2.1.cols, r.2.2.size)) =
      if l.length = 0 ∨ (i + l.length ≤ A.rows ∧ mb.nrDof ≤ A.cols ∧ i + l.length ≤ B.size)
      then some (A.rows, A.cols, B.size) else none := by
  by_cases hc : l.length = 0 ∨ (i + l.length ≤ A.rows ∧ mb.nrDof ≤ A.cols ∧ i + l.length ≤ B.size)
  · rw [if_pos hc]
    rcases hc with hz | ⟨c1, c2, c3⟩
    · have hl : l = [] := List.length_eq_zero.1 hz
      subst hl
      simp [updateLoop]
    · obtain ⟨r, e, _⟩ := updateLoop_spec mb mbc step l i A B c1 c2 c3
      obtain ⟨q1, q2, q3, _⟩ := updateLoop_frame mb mbc step _ _ _ _ r e
      simp [e, q1, q2, q3]
  · rw [if_neg hc]
    cases h : updateLoop mb mbc step i l A B with
    | none => rfl
    | some r => exact absurd (updateLoop_bounds mb mbc step l i A B r h) hc

theorem SelfCollisionConstr.update_blockDims (mb : MultiBody) (mbc : MultiBodyConfig)
    (s : SelfCollisionConstr) :
    (s.update mb mbc).map SelfCollisionConstr.blockDims =
      (updateLoop mb mbc s.step 0 s.dataVec
        (if s.AInEq.rows ≠ s.dataVec.length ∨ s.AInEq.cols ≠ s.nrVars
          then MatrixXd.zero s.dataVec.length s.nrVars else s.AInEq)
        (if s.AInEq.rows ≠ s.dataVec.length ∨ s.AInEq.cols ≠ s.nrVars
          then VectorXd.zero s.dataVec.length else s.BInEq)).map
        (fun r => (r.2.1.rows, r.2.1.cols, r.2.2.size)) := by
  unfold SelfCollisionConstr.update
  simp only []
  cases updateLoop mb mbc s.step 0 s.dataVec _ _ with
  | none => rfl
  | some r => rfl

/-- C10. Collision-pair round trip: for every state of a `SelfCollisionConstr` and every
body-id pair `(b1, b2)`, `addCollision(b1, b2, ...)` followed by `rmCollision(b1, b2)`
restores `nrInEqLine()`, and a subsequent `update` behaves, as far as the dimensions of
`AInEq` and `BInEq` are concerned, exactly as `update` on the state in which the pair
was never added (same success, same dimensions); in a state the constraint can be in,
with `mb.nrDof() <= nrVars`, that `update` succeeds and leaves `nrInEqLine()` rows and
`nrVars` columns. -/
theorem selfCollision_add_rm_roundtrip (mb : MultiBody) (s : SelfCollisionConstr)
    (b1 : Int) (o1 : Nat) (b2 : Int) (o2 : Nat) (di ds damping : ℚ) (mbc : MultiBodyConfig) :
    ((s.addCollision mb b1 o1 b2 o2 di ds damping).rmCollision b1 b2).nrInEqLine
      = s.nrInEqLine ∧
    (((s.addCollision mb b1 o1 b2 o2 di ds damping).rmCollision b1 b2).update mb mbc).map
        SelfCollisionConstr.blockDims
      = (s.update mb mbc).map SelfCollisionConstr.blockDims ∧
    (SelfCollisionConstr.Reachable mb s → mb.nrDof ≤ s.nrVars →
      ∃ s3, ((s.addCollision mb b1 o1 b2 o2 di ds damping).rmCollision b1 b2).update mb mbc
          = some s3 ∧
        s3.blockDims = (s.nrInEqLine, s.nrVars, s.nrInEqLine)) := by
  have hlen : (eraseFirst b1 b2
      (s.dataVec ++ [CollData.new mb b1 o1 b2 o2 di ds damping])).length = s.dataVec.length :=
    eraseFirst_append_length b1 b2 _ ⟨rfl, rfl⟩ _
  refine ⟨hlen, ?_, ?_⟩
  · rw [SelfCollisionConstr.update_blockDims, SelfCollisionConstr.update_blockDims,
      updateLoop_dims, updateLoop_dims]
    simp only [SelfCollisionConstr.rmCollision, SelfCollisionConstr.addCollision, hlen]
  · intro hs hdof
    obtain ⟨s3, e, r1, r2, r3, _⟩ := selfCollision_update_spec
      (SelfCollisionConstr.Reachable.rmCollision b1 b2
        (SelfCollisionConstr.Reachable.addCollision b1 o1 b2 o2 di ds damping hs)) mbc
      (by simpa [SelfCollisionConstr.rmCollision, SelfCollisionConstr.addCollision] using hdof)
    refine ⟨s3, e, ?_⟩
    simp only [SelfCollisionConstr.rmCollision, SelfCollisionConstr.addCollision] at r1 r2 r3
    simp only [SelfCollisionConstr.blockDims, SelfCollisionConstr.nrInEqLine, r1, r2, r3, hlen]

/-- Witness of C10: adding the pair (1, 2) to `exColl 3`, which already monitors a pair
(1, 2), and removing it again leaves one pair, and `update` then gives a `1 x 1` block
and a bound of size 1. -/
theorem selfCollision_add_rm_roundtrip_witness :
    SelfCollisionConstr.Reachable exMb (exColl 3) ∧ exMb.nrDof ≤ (exColl 3).nrVars ∧
    (((exColl 3).addCollision exMb 1 5 2 6 4 2 1).rmCollision 1 2).nrInEqLine = 1 ∧
    ∃ s3, (((exColl 3).addCollision exMb 1 5 2 6 4 2 1).rmCollision 1 2).update exMb exMbc
        = some s3 ∧ s3.blockDims = (1, 1, 1) :=
  ⟨exColl_reachable 3, by decide,
    (selfCollision_add_rm_roundtrip exMb (exColl 3) 1 5 2 6 4 2 1 exMbc).1,
    (selfCollision_add_rm_roundtrip exMb (exColl 3) 1 5 2 6 4 2 1 exMbc).2.2
      (exColl_reachable 3) (by decide)⟩

/-! ### ContactAccConstr -/

theorem assignSegment_some {v v1 w : VectorXd} {start n : Nat}
    (hh : v.assignSegment start n w = some v1) :
    start + n ≤ v.size ∧ w.size = n ∧ v1.size = v.size ∧
    ∀ k, v1.coeff k = if start ≤ k ∧ k < start + n then w.coeff (k - start) else v.coeff k := by
  unfold VectorXd.assignSegment at hh
  split at hh
  · rename_i hc
    cases hh
    exact ⟨hc.1, hc.2, rfl, fun _ => rfl⟩
  · cases hh

theorem assignSegment_ok (v : VectorXd) (start n : Nat) (w : VectorXd)
    (h1 : start + n ≤ v.size) (h2 : w.size = n) :
    ∃ v1, v.assignSegment start n w = some v1 ∧ v1.size = v.size ∧
      ∀ k, v1.coeff k =
        if start ≤ k ∧ k < start + n then w.coeff (k - start) else v.coeff k := by
  unfold VectorXd.assignSegment
  rw [if_pos ⟨h1, h2⟩]
  exact ⟨_, rfl, rfl, fun _ => rfl⟩

theorem ContactAccConstr.loop_bounds (mb : MultiBody) (mbc : MultiBodyConfig) :
    ∀ (l : List ContactAccConstr.ContactData) (i : Nat) (A : MatrixXd) (B : VectorXd)
      (r : MatrixXd × VectorXd),
      ContactAccConstr.loop mb mbc i l A B = some r →
      r.1.rows = A.rows ∧ r.1.cols = A.cols ∧ r.2.size = B.size ∧
      (∀ a c, mb.nrDof ≤ c → r.1.coeff a c = A.coeff a c) ∧
      (l.length = 0 ∨
        ((i + l.length) * 6 ≤ A.rows ∧ mb.nrDof ≤ A.cols ∧ (i + l.length) * 6 ≤ B.size)) := by
  intro l
  induction l with
  | nil =>
    intro i A B r h
    simp only [ContactAccConstr.loop, Option.some.injEq] at h
    subst h
    simp
  | cons d ds ih =>
    intro i A B r h
    simp only [ContactAccConstr.loop] at h
    obtain ⟨A1, hA, h⟩ := Option.bind_eq_some.1 h
    obtain ⟨B1, hB, h⟩ := Option.bind_eq_some.1 h
    obtain ⟨a1, a2, _, _, a5, a6, a7⟩ := assignBlock_some hA
    obtain ⟨b1, _, b3, _⟩ := assignSegment_some hB
    obtain ⟨q1, q2, q3, q4, q5⟩ := ih (i + 1) A1 B1 r h
    refine ⟨by omega, by omega, by omega, fun a c hc => ?_, Or.inr ?_⟩
    · have hn : ¬ (i * 6 ≤ a ∧ a < i * 6 + 6 ∧ 0 ≤ c ∧ c < 0 + mb.nrDof) := by omega
      rw [q4 a c hc, a7 a c, if_neg hn]
    · simp only [List.length_cons]
      rcases q5 with hz | ⟨c1, _, c3⟩
      · omega
      · omega

theorem ContactAccConstr.loop_spec (mb : MultiBody) (mbc : MultiBodyConfig) :
    ∀ (l : List ContactAccConstr.ContactData) (i : Nat) (A : MatrixXd) (B : VectorXd),
      (i + l.length) * 6 ≤ A.rows → mb.nrDof ≤ A.cols → (i + l.length) * 6 ≤ B.size →
      ∃ r, ContactAccConstr.loop mb mbc i l A B = some r ∧
        (∀ a c, a < i * 6 → r.1.coeff a c = A.coeff a c) ∧
        (∀ a, a < i * 6 → r.2.coeff a = B.coeff a) ∧
        (∀ k d, l[k]? = some d → ∀ t, t < 6 →
          (∀ c, c < mb.nrDof → r.1.coeff ((i + k) * 6 + t) c = (d.fullJac mb mbc).coeff t c) ∧
          r.2.coeff ((i + k) * 6 + t) =
            ((d.fullJacDot mb mbc).neg.mulVec (alphaVec mb mbc)).coeff t) := by
  intro l
  induction l with
  | nil =>
    intro i A B _ _ _
    exact ⟨(A, B), rfl, fun _ _ _ => rfl, fun _ _ => rfl, by simp⟩
  | cons d ds ih =>
    intro i A B hA hc hB
    simp only [List.length_cons] at hA hB
    have e0 := assignBlock_ok A (i * 6) 0 6 mb.nrDof (d.fullJac mb mbc)
      (by omega) (by omega) rfl rfl
    obtain ⟨B1, e1, s1, s2⟩ := assignSegment_ok B (i * 6) 6
      ((d.fullJacDot mb mbc).neg.mulVec (alphaVec mb mbc)) (by omega) rfl
    obtain ⟨r1, e2, f1, f2, f3⟩ := ih (i + 1) (A.withBlock (i * 6) 0 6 mb.nrDof (d.fullJac mb mbc))
      B1 (by simp only [MatrixXd.withBlock]; omega) (by simpa [MatrixXd.withBlock] using hc)
      (by omega)
    refine ⟨r1, by simp [ContactAccConstr.loop, e0, e1, e2], ?_, ?_, ?_⟩
    · intro a c ha
      have hn : ¬ (i * 6 ≤ a ∧ a < i * 6 + 6 ∧ 0 ≤ c ∧ c < 0 + mb.nrDof) := by omega
      rw [f1 a c (by omega)]
      simp only [MatrixXd.withBlock, if_neg hn]
    · intro a ha
      have hn : ¬ (i * 6 ≤ a ∧ a < i * 6 + 6) := by omega
      rw [f2 a (by omega), s2 a, if_neg hn]
    · intro k e hk t ht
      cases k with
      | zero =>
        simp only [List.getElem?_cons_zero, Option.some.injEq] at hk
        subst hk
        refine ⟨fun c hcl => ?_, ?_⟩
        · have hy : (i * 6 ≤ (i + 0) * 6 + t ∧ (i + 0) * 6 + t < i * 6 + 6 ∧ 0 ≤ c ∧
              c < 0 + mb.nrDof) := by omega
          rw [f1 _ c (by omega)]
          simp only [MatrixXd.withBlock, if_pos hy]
          congr 1; omega
        · have hy : (i * 6 ≤ (i + 0) * 6 + t ∧ (i + 0) * 6 + t < i * 6 + 6) := by omega
          rw [f2 _ (by omega), s2 _, if_pos hy]
          congr 1; omega
      | succ k =>
        simp only [List.getElem?_cons_succ] at hk
        have := f3 k e hk t ht
        have hik : (i + (k + 1)) * 6 + t = (i + 1 + k) * 6 + t := by omega
        rw [hik]
        exact this

theorem contactAcc_reachable_inv {mb : MultiBody} {s : ContactAccConstr}
    (h : ContactAccConstr.Reachable mb s) :
    s.AEq.rows = s.cont.length * 6 ∧ s.AEq.cols = s.nrDof + s.nrFor + s.nrTor ∧
    s.BEq.size = s.cont.length * 6 ∧ ∀ a c, mb.nrDof ≤ c → s.AEq.coeff a c = 0 := by
  induction h with
  | init => simp [ContactAccConstr.new, MatrixXd.zero, VectorXd.zero]
  | updateNrVars _ _ _ _ _ _ =>
    simp [ContactAccConstr.updateNrVars, MatrixXd.zero, VectorXd.zero]
  | @update s0 s1 mbc _ hu ih =>
    unfold ContactAccConstr.update at hu
    obtain ⟨r, hr, hs⟩ := Option.bind_eq_some.1 hu
    cases hs
    obtain ⟨q1, q2, q3, q4, _⟩ := ContactAccConstr.loop_bounds mb mbc _ _ _ _ r hr
    obtain ⟨i1, i2, i3, i4⟩ := ih
    exact ⟨by simp [q1, i1], by simp [q2, i2], by simp [q3, i3],
      fun a c hc => by simp [q4 a c hc, i4 a c hc]⟩

theorem contactAcc_update_spec (mb : MultiBody) (s : ContactAccConstr)
    (i1 : s.AEq.rows = s.cont.length * 6) (i2 : s.AEq.cols = s.nrDof + s.nrFor + s.nrTor)
    (i3 : s.BEq.size = s.cont.length * 6) (mbc : MultiBodyConfig)
    (hdof : mb.nrDof ≤ s.nrDof + s.nrFor + s.nrTor) :
    ∃ s1, s.update mb mbc = some s1 ∧
      s1.AEq.rows = s.cont.length * 6 ∧ s1.AEq.cols = s.nrDof + s.nrFor + s.nrTor ∧
      s1.BEq.size = s.cont.length * 6 ∧
      ∀ i d, s.cont[i]? = some d → ∀ t, t < 6 →
        (∀ c, c < mb.nrDof → s1.AEq.coeff (i * 6 + t) c = (d.fullJac mb mbc).coeff t c) ∧
        (∀ c, mb.nrDof ≤ c → s1.AEq.coeff (i * 6 + t) c = s.AEq.coeff (i * 6 + t) c) ∧
        s1.BEq.coeff (i * 6 + t) =
          ((d.fullJacDot mb mbc).neg.mulVec (alphaVec mb mbc)).coeff t := by
  obtain ⟨r, e, _, _, f3⟩ := ContactAccConstr.loop_spec mb mbc s.cont 0 s.AEq s.BEq
    (by omega) (by omega) (by omega)
  obtain ⟨q1, q2, q3, q4, _⟩ := ContactAccConstr.loop_bounds mb mbc _ _ _ _ r e
  refine ⟨{ s with AEq := r.1, BEq := r.2 }, by simp [ContactAccConstr.update, e],
    by simp [q1, i1], by simp [q2, i2], by simp [q3, i3], ?_⟩
  intro i d hd t ht
  have := f3 i d hd t ht
  simp only [Nat.zero_add] at this
  exact ⟨this.1, fun c hc => by simp [q4 _ c hc], this.2⟩

theorem exAcc_reachable : ContactAccConstr.Reachable exMb exAcc :=
  .updateNrVars 1 1 0 [exContact] .init

/-- C8. `ContactAccConstr::update` at zero velocity: in every state the constraint can be
in (any contact set), with the Jacobian block fitting into `AEq`
(`mb.nrDof() <= alphaD + lambda + torque`), and for every configuration whose generalized
velocity vector is zero, `update` succeeds and every entry of `BEq` is exactly zero. -/
theorem contactAcc_zero_velocity (mb : MultiBody) (s : ContactAccConstr)
    (hs : ContactAccConstr.Reachable mb s) (mbc : MultiBodyConfig)
    (hdof : mb.nrDof ≤ s.nrDof + s.nrFor + s.nrTor)
    (hzero : ∀ k, k < mb.nrDof → mbc.alpha k = 0) :
    ∃ s1, s.update mb mbc = some s1 ∧ s1.BEq.size = 6 * s.cont.length ∧
      ∀ k, k < s1.BEq.size → s1.BEq.coeff k = 0 := by
  obtain ⟨i1, i2, i3, _⟩ := contactAcc_reachable_inv hs
  obtain ⟨s1, e, _, _, r3, f⟩ := contactAcc_update_spec mb s i1 i2 i3 mbc hdof
  refine ⟨s1, e, by omega, fun k hk => ?_⟩
  have hk6 : k / 6 < s.cont.length := by omega
  have hd : s.cont[k / 6]? = some (s.cont[k / 6]) := List.getElem?_eq_getElem hk6
  have hkk : k / 6 * 6 + k % 6 = k := by omega
  have := (f (k / 6) _ hd (k % 6) (by omega)).2.2
  rw [hkk] at this
  rw [this]
  simp only [MatrixXd.mulVec, MatrixXd.neg, alphaVec, ContactAccConstr.ContactData.fullJacDot,
    fullJacobian]
  refine Finset.sum_eq_zero fun c hc => ?_
  rw [hzero c (Finset.mem_range.1 hc), mul_zero]

/-- Witness of C8: `exAcc` (one contact) at the rest configuration `exMbcRest`. -/
theorem contactAcc_zero_velocity_witness :
    ContactAccConstr.Reachable exMb exAcc ∧
    exMb.nrDof ≤ exAcc.nrDof + exAcc.nrFor + exAcc.nrTor ∧
    (∀ k, k < exMb.nrDof → exMbcRest.alpha k = 0) ∧
    ∃ s1, exAcc.update exMb exMbcRest = some s1 ∧ s1.BEq.size = 6 * exAcc.cont.length ∧
      ∀ k, k < s1.BEq.size → s1.BEq.coeff k = 0 :=
  ⟨exAcc_reachable, by decide, fun _ _ => rfl,
    contactAcc_zero_velocity exMb exAcc exAcc_reachable exMbcRest (by decide) (fun _ _ => rfl)⟩

/-- C9. Layout of `ContactAccConstr`: after `updateNrVars` (from any state) with `n`
contacts and the layout `(alphaD, lambda, torque)`, `nrEqLine() = 6*n` and `AEq` is
`6n x (alphaD + lambda + torque)`. When the acceleration segment holds the DOF columns
(`mb.nrDof() <= alphaD`), `update` then succeeds and, for every contact `i`, the rows
`[6i, 6i+6)` of `AEq` carry the full 6-row Jacobian of contact `i` on the `mb.nrDof()`
DOF columns and are zero on every force and torque column (every column from `alphaD`
on), and `BEq[6i, 6i+6) = -(full JDot_i) * alpha`. -/
theorem contactAcc_layout (mb : MultiBody) (s0 : ContactAccConstr)
    (alphaD lambda torque : Nat) (cont : List Contact) (mbc : MultiBodyConfig)
    (hdof : mb.nrDof ≤ alphaD) :
    (s0.updateNrVars alphaD lambda torque cont).nrEqLine = 6 * cont.length ∧
    (s0.updateNrVars alphaD lambda torque cont).AEq.rows = 6 * cont.length ∧
    (s0.updateNrVars alphaD lambda torque cont).AEq.cols = alphaD + lambda + torque ∧
    ∃ s1, (s0.updateNrVars alphaD lambda torque cont).update mb mbc = some s1 ∧
      s1.nrEqLine = 6 * cont.length ∧ s1.AEq.cols = alphaD + lambda + torque ∧
      s1.BEq.size = 6 * cont.length ∧
      ∀ i c, cont[i]? = some c → ∀ t, t < 6 →
        (∀ col, col < mb.nrDof → s1.AEq.coeff (6 * i + t) col =
          mbc.fullJacobian (Jacobian.new c.bodyId) (mbc.jacobian (Jacobian.new c.bodyId)) t col) ∧
        (∀ col, alphaD ≤ col → s1.AEq.coeff (6 * i + t) col = 0) ∧
        s1.BEq.coeff (6 * i + t) =
          -(∑ col ∈ Finset.range mb.nrDof,
            mbc.fullJacobian (Jacobian.new c.bodyId) (mbc.jacobianDot (Jacobian.new c.bodyId))
              t col * mbc.alpha col) := by
  have hlen : (s0.updateNrVars alphaD lambda torque cont).cont.length = cont.length := by
    simp [ContactAccConstr.updateNrVars]
  refine ⟨by simp [ContactAccConstr.nrEqLine, ContactAccConstr.updateNrVars, MatrixXd.zero,
      Nat.mul_comm],
    by simp [ContactAccConstr.updateNrVars, MatrixXd.zero, Nat.mul_comm],
    by simp [ContactAccConstr.updateNrVars, MatrixXd.zero], ?_⟩
  obtain ⟨s1, e, r1, r2, r3, f⟩ := contactAcc_update_spec mb
    (s0.updateNrVars alphaD lambda torque cont)
    (by simp [ContactAccConstr.updateNrVars, MatrixXd.zero])
    (by simp [ContactAccConstr.updateNrVars, MatrixXd.zero])
    (by simp [ContactAccConstr.updateNrVars, VectorXd.zero]) mbc
    (by simp only [ContactAccConstr.updateNrVars]; omega)
  refine ⟨s1, e, by simp only [ContactAccConstr.nrEqLine]; omega,
    by simpa [ContactAccConstr.updateNrVars] using r2, by omega, ?_⟩
  intro i c hc t ht
  have hd : (s0.updateNrVars alphaD lambda torque cont).cont[i]?
      = some ⟨Jacobian.new c.bodyId⟩ := by
    simp [ContactAccConstr.updateNrVars, hc]
  obtain ⟨g1, g2, g3⟩ := f i _ hd t ht
  rw [Nat.mul_comm 6 i]
  refine ⟨fun col hcol => by rw [g1 col hcol]; rfl,
    fun col hcol => by rw [g2 col (by omega)]; rfl, ?_⟩
  rw [g3]
  simp only [MatrixXd.mulVec, MatrixXd.neg, alphaVec, ContactAccConstr.ContactData.fullJacDot,
    fullJacobian, neg_mul, Finset.sum_neg_distrib]

/-- Witness of C9: one contact of body 3 on the 1-DOF robot, layout `(1, 1, 0)`:
`AEq` is `6 x 2`, its row 5 holds the Jacobian coefficient 1 in the DOF column and 0 in
the force column, and `BEq(5) = 0`. -/
theorem contactAcc_layout_witness :
    exMb.nrDof ≤ 1 ∧
    (ContactAccConstr.new.updateNrVars 1 1 0 [exContact]).nrEqLine = 6 ∧
    ∃ s1, (ContactAccConstr.new.updateNrVars 1 1 0 [exContact]).update exMb exMbc = some s1 ∧
      s1.nrEqLine = 6 ∧ s1.AEq.cols = 2 ∧
      s1.AEq.coeff 5 0 = 1 ∧ s1.AEq.coeff 5 1 = 0 ∧ s1.BEq.coeff 5 = 0 := by
  obtain ⟨h1, _, _, s1, e, h2, h3, _, f⟩ :=
    contactAcc_layout exMb ContactAccConstr.new 1 1 0 [exContact] exMbc (by decide)
  refine ⟨by decide, h1, s1, e, h2, h3, ?_⟩
  obtain ⟨g1, g2, g3⟩ := f 0 exContact rfl 5 (by decide)
  refine ⟨?_, ?_, ?_⟩
  · rw [g1 0 (by decide)]; simp [exMbc, exContact, Jacobian.new]
  · exact g2 1 (by decide)
  · rw [g3]; simp [exMbc, exContact, Jacobian.new, exMb]

/-! ### MotionConstr -/

theorem MotionConstr.pointLoop_spec (mb : MultiBody) (mbc : MultiBodyConfig) (nrDof : Nat)
    (jac : Jacobian) (hnr : nrDof = mb.nrDof) :
    ∀ (ps ns : List Vector3d) (A : MatrixXd) (contPos : Nat),
      ps.length ≤ ns.length → nrDof ≤ A.rows → contPos + ps.length ≤ A.cols →
      ∃ A1, MotionConstr.pointLoop mb mbc nrDof jac ps ns A contPos
          = some (A1, contPos + ps.length) ∧
        A1.rows = A.rows ∧ A1.cols = A.cols ∧
        (∀ r c, (c < contPos ∨ contPos + ps.length ≤ c ∨ nrDof ≤ r) →
          A1.coeff r c = A.coeff r c) ∧
        (∀ j p n, ps[j]? = some p → ns[j]? = some n → ∀ r, r < nrDof →
          A1.coeff r (contPos + j) =
            ((MotionConstr.pointJac mb mbc jac p).neg.transTMul n).coeff r) := by
  intro ps
  induction ps with
  | nil =>
    intro ns A contPos _ _ _
    exact ⟨A, by simp [MotionConstr.pointLoop], rfl, rfl, fun _ _ _ => rfl, by simp⟩
  | cons p ps ih =>
    intro ns A contPos hlen hrows hcols
    cases ns with
    | nil => simp at hlen
    | cons n ns =>
      simp only [List.length_cons] at hlen hcols
      have e0 := assignBlock_ok A 0 contPos nrDof 1
        ((MotionConstr.pointJac mb mbc jac p).neg.transTMul n).asMatrix
        (by omega) (by omega) (by rw [hnr]; rfl) rfl
      obtain ⟨A1, e1, d1, d2, f1, f2⟩ := ih ns
        (A.withBlock 0 contPos nrDof 1
          ((MotionConstr.pointJac mb mbc jac p).neg.transTMul n).asMatrix)
        (contPos + 1) (by omega) (by simpa [MatrixXd.withBlock] using hrows)
        (by simp only [MatrixXd.withBlock]; omega)
      have hpos : contPos + 1 + ps.length = contPos + (ps.length + 1) := by omega
      refine ⟨A1, ?_, by rw [d1]; rfl, by rw [d2]; rfl, ?_, ?_⟩
      · simp only [MotionConstr.pointLoop, e0, Option.some_bind, e1, List.length_cons, hpos]
      · intro r c hc
        simp only [List.length_cons] at hc
        have hn : ¬ (0 ≤ r ∧ r < 0 + nrDof ∧ contPos ≤ c ∧ c < contPos + 1) := by omega
        rw [f1 r c (by omega)]
        simp only [MatrixXd.withBlock, if_neg hn]
      · intro j q m hq hm r hr
        cases j with
        | zero =>
          simp only [List.getElem?_cons_zero, Option.some.injEq] at hq hm
          subst hq hm
          have hy : (0 ≤ r ∧ r < 0 + nrDof ∧ contPos ≤ contPos + 0 ∧ contPos + 0 < contPos + 1) := by
            omega
          rw [f1 r (contPos + 0) (by omega)]
          simp only [MatrixXd.withBlock, if_pos hy, VectorXd.asMatrix, Nat.sub_zero]
        | succ j =>
          simp only [List.getElem?_cons_succ] at hq hm
          have := f2 j q m hq hm r hr
          have hj : contPos + (j + 1) = contPos + 1 + j := by omega
          rw [hj]
          exact this

theorem MotionConstr.nrPoints_cons (c : MotionConstr.ContactData)
    (cs : List MotionConstr.ContactData) :
    MotionConstr.nrPoints (c :: cs) = c.points.length + MotionConstr.nrPoints cs := by
  simp [MotionConstr.nrPoints]

theorem MotionConstr.nrPoints_take_le :
    ∀ (l : List MotionConstr.ContactData) (i : Nat) (c : MotionConstr.ContactData),
      l[i]? = some c →
      MotionConstr.nrPoints (l.take i) + c.points.length ≤ MotionConstr.nrPoints l := by
  intro l
  induction l with
  | nil => intro i c h; simp at h
  | cons d ds ih =>
    intro i c h
    cases i with
    | zero =>
      simp only [List.getElem?_cons_zero, Option.some.injEq] at h
      subst h
      simp [MotionConstr.nrPoints]
    | succ i =>
      simp only [List.getElem?_cons_succ] at h
      have := ih i c h
      rw [List.take_succ_cons, MotionConstr.nrPoints_cons, MotionConstr.nrPoints_cons]
      omega

theorem MotionConstr.contLoop_spec (mb : MultiBody) (mbc : MultiBodyConfig) (nrDof : Nat)
    (hnr : nrDof = mb.nrDof) :
    ∀ (cs : List MotionConstr.ContactData) (A : MatrixXd) (contPos : Nat),
      (∀ c ∈ cs, c.points.length ≤ c.normals.length) → nrDof ≤ A.rows →
      contPos + MotionConstr.nrPoints cs ≤ A.cols →
      ∃ A1, MotionConstr.contLoop mb mbc nrDof cs A contPos
          = some (A1, contPos + MotionConstr.nrPoints cs) ∧
        A1.rows = A.rows ∧ A1.cols = A.cols ∧
        (∀ r c, (c < contPos ∨ contPos + MotionConstr.nrPoints cs ≤ c ∨ nrDof ≤ r) →
          A1.coeff r c = A.coeff r c) ∧
        (∀ i c j p n, cs[i]? = some c → c.points[j]? = some p → c.normals[j]? = some n →
          ∀ r, r < nrDof →
          A1.coeff r (contPos + MotionConstr.nrPoints (cs.take i) + j) =
            ((MotionConstr.pointJac mb mbc c.jac p).neg.transTMul n).coeff r) := by
  intro cs
  induction cs with
  | nil =>
    intro A contPos _ _ _
    exact ⟨A, by simp [MotionConstr.contLoop, MotionConstr.nrPoints], rfl, rfl,
      fun _ _ _ => rfl, by simp⟩
  | cons c cs ih =>
    intro A contPos hn hrows hcols
    rw [MotionConstr.nrPoints_cons] at hcols
    obtain ⟨A1, e1, d1, d2, f1, f2⟩ := MotionConstr.pointLoop_spec mb mbc nrDof c.jac hnr
      c.points c.normals A contPos (hn c (List.mem_cons_self _ _)) hrows (by omega)
    obtain ⟨A2, e2, g1, g2, h1, h2⟩ := ih A1 (contPos + c.points.length)
      (fun x hx => hn x (List.mem_cons_of_mem _ hx)) (by omega) (by omega)
    have hpos : contPos + c.points.length + MotionConstr.nrPoints cs
        = contPos + MotionConstr.nrPoints (c :: cs) := by
      rw [MotionConstr.nrPoints_cons]; omega
    refine ⟨A2, ?_, by omega, by omega, ?_, ?_⟩
    · simp only [MotionConstr.contLoop, e1, Option.some_bind, e2, hpos]
    · intro r col hc
      rw [MotionConstr.nrPoints_cons] at hc
      rw [h1 r col (by omega), f1 r col (by omega)]
    · intro i d j q m hd hq hm r hr
      cases i with
      | zero =>
        simp only [List.getElem?_cons_zero, Option.some.injEq] at hd
        subst hd
        have hj : j < c.points.length := by
          rcases List.getElem?_eq_some.1 hq with ⟨hlt, _⟩
          exact hlt
        simp only [List.take_zero, MotionConstr.nrPoints, List.map_nil, List.sum_nil,
          Nat.add_zero]
        rw [h1 r _ (by omega)]
        exact f2 j q m hq hm r hr
      | succ i =>
        simp only [List.getElem?_cons_succ] at hd
        have := h2 i d j q m hd hq hm r hr
        have hcol : contPos + MotionConstr.nrPoints ((c :: cs).take (i + 1)) + j
            = contPos + c.points.length + MotionConstr.nrPoints (cs.take i) + j := by
          rw [List.take_succ_cons, MotionConstr.nrPoints_cons]; omega
        rw [hcol]
        exact this

theorem motion_update_spec (mb : MultiBody) (mbc : MultiBodyConfig) (s : MotionConstr)
    (hrows : s.AEq.rows = s.nrDof) (hcols : s.AEq.cols = s.nrDof + s.nrFor + s.nrTor)
    (hdof : s.nrDof = mb.nrDof)
    (hn : ∀ c ∈ s.cont, c.points.length ≤ c.normals.length)
    (hP : MotionConstr.nrPoints s.cont ≤ s.nrFor)
    (hT : mb.joint0Dof + s.nrTor ≤ s.nrDof) :
    ∃ s1, s.update mb mbc = some s1 ∧
      s1.AEq.rows = s.nrDof ∧ s1.AEq.cols = s.nrDof + s.nrFor + s.nrTor ∧
      s1.BEq.size = mb.nrDof ∧ (∀ r, s1.BEq.coeff r = -mbc.C r) ∧
      (∀ r c, r < s.nrDof → c < s.nrDof → s1.AEq.coeff r c = mbc.H r c) ∧
      (∀ i c j p n, s.cont[i]? = some c → c.points[j]? = some p → c.normals[j]? = some n →
        ∀ r, r < s.nrDof →
        s1.AEq.coeff r (s.nrDof + MotionConstr.nrPoints (s.cont.take i) + j) =
          ((MotionConstr.pointJac mb mbc c.jac p).neg.transTMul n).coeff r) ∧
      (∀ a b, a < s.nrTor → b < s.nrTor →
        s1.AEq.coeff (mb.joint0Dof + a) (s.nrDof + MotionConstr.nrPoints s.cont + b) =
          if a = b then -1 else 0) ∧
      (∀ r c, s.nrDof + MotionConstr.nrPoints s.cont ≤ c →
        ¬ (mb.joint0Dof ≤ r ∧ r < mb.joint0Dof + s.nrTor ∧
            c < s.nrDof + MotionConstr.nrPoints s.cont + s.nrTor) →
        s1.AEq.coeff r c = s.AEq.coeff r c) := by
  have e0 := assignBlock_ok s.AEq 0 0 s.nrDof s.nrDof ⟨mb.nrDof, mb.nrDof, mbc.H⟩
    (by omega) (by omega) hdof.symm hdof.symm
  obtain ⟨A2, e2, d1, d2, f1, f2⟩ := MotionConstr.contLoop_spec mb mbc s.nrDof hdof s.cont
    (s.AEq.withBlock 0 0 s.nrDof s.nrDof ⟨mb.nrDof, mb.nrDof, mbc.H⟩) s.nrDof hn
    (by simp only [MatrixXd.withBlock]; omega) (by simp only [MatrixXd.withBlock]; omega)
  have d1s : A2.rows = s.AEq.rows := by rw [d1]; rfl
  have d2s : A2.cols = s.AEq.cols := by rw [d2]; rfl
  have e3 := assignBlock_ok A2 mb.joint0Dof (s.nrDof + MotionConstr.nrPoints s.cont)
    s.nrTor s.nrTor (MatrixXd.negIdentity s.nrTor) (by omega) (by omega) rfl rfl
  refine ⟨{ s with
      AEq := A2.withBlock mb.joint0Dof (s.nrDof + MotionConstr.nrPoints s.cont) s.nrTor s.nrTor
        (MatrixXd.negIdentity s.nrTor)
      BEq := (VectorXd.mk mb.nrDof mbc.C).neg },
    by simp only [MotionConstr.update, e0, Option.some_bind, e2, e3],
    by simp only [MatrixXd.withBlock]; omega, by simp only [MatrixXd.withBlock]; omega,
    rfl, fun _ => rfl, ?_, ?_, ?_, ?_⟩
  · intro r c hr hc
    have hn3 : ¬ (mb.joint0Dof ≤ r ∧ r < mb.joint0Dof + s.nrTor ∧
        s.nrDof + MotionConstr.nrPoints s.cont ≤ c ∧
        c < s.nrDof + MotionConstr.nrPoints s.cont + s.nrTor) := by omega
    have hy : (0 ≤ r ∧ r < 0 + s.nrDof ∧ 0 ≤ c ∧ c < 0 + s.nrDof) := by omega
    simp only [MatrixXd.withBlock, if_neg hn3]
    rw [f1 r c (Or.inl hc)]
    simp only [MatrixXd.withBlock, if_pos hy, Nat.sub_zero]
  · intro i c j p n hc hp hnm r hr
    have hj : j < c.points.length := (List.getElem?_eq_some.1 hp).1
    have hi : i < s.cont.length := (List.getElem?_eq_some.1 hc).1
    have hle := MotionConstr.nrPoints_take_le s.cont i c hc
    have hn3 : ¬ (mb.joint0Dof ≤ r ∧ r < mb.joint0Dof + s.nrTor ∧
        s.nrDof + MotionConstr.nrPoints s.cont
          ≤ s.nrDof + MotionConstr.nrPoints (s.cont.take i) + j ∧
        s.nrDof + MotionConstr.nrPoints (s.cont.take i) + j
          < s.nrDof + MotionConstr.nrPoints s.cont + s.nrTor) := by omega
    simp only [MatrixXd.withBlock, if_neg hn3]
    exact f2 i c j p n hc hp hnm r hr
  · intro a b ha hb
    have hy : (mb.joint0Dof ≤ mb.joint0Dof + a ∧ mb.joint0Dof + a < mb.joint0Dof + s.nrTor ∧
        s.nrDof + MotionConstr.nrPoints s.cont ≤ s.nrDof + MotionConstr.nrPoints s.cont + b ∧
        s.nrDof + MotionConstr.nrPoints s.cont + b
          < s.nrDof + MotionConstr.nrPoints s.cont + s.nrTor) := by omega
    simp only [MatrixXd.withBlock, if_pos hy, MatrixXd.negIdentity, Nat.add_sub_cancel_left]
  · intro r c hc hout
    have hn3 : ¬ (mb.joint0Dof ≤ r ∧ r < mb.joint0Dof + s.nrTor ∧
        s.nrDof + MotionConstr.nrPoints s.cont ≤ c ∧
        c < s.nrDof + MotionConstr.nrPoints s.cont + s.nrTor) := by omega
    have hn0 : ¬ (0 ≤ r ∧ r < 0 + s.nrDof ∧ 0 ≤ c ∧ c < 0 + s.nrDof) := by omega
    simp only [MatrixXd.withBlock, if_neg hn3]
    rw [f1 r c (Or.inr (Or.inl hc))]
    simp only [MatrixXd.withBlock, if_neg hn0]

theorem MotionConstr.update_bounds {mb : MultiBody} {mbc : MultiBodyConfig}
    {s s1 : MotionConstr} (h : s.update mb mbc = some s1) :
    s1.XL = s.XL ∧ s1.XU = s.XU ∧ s1.nrDof = s.nrDof ∧ s1.nrFor = s.nrFor ∧
    s1.nrTor = s.nrTor := by
  unfold MotionConstr.update at h
  obtain ⟨A1, _, h⟩ := Option.bind_eq_some.1 h
  obtain ⟨r, _, h⟩ := Option.bind_eq_some.1 h
  obtain ⟨A3, _, h⟩ := Option.bind_eq_some.1 h
  cases h
  exact ⟨rfl, rfl, rfl, rfl, rfl⟩

theorem MotionConstr.updateNrVars_wf (s0 : MotionConstr) (alphaD lambda torque : Nat)
    (cont : List Contact) :
    (s0.updateNrVars alphaD lambda torque cont).AEq.rows = alphaD ∧
    (s0.updateNrVars alphaD lambda torque cont).AEq.cols = alphaD + lambda + torque ∧
    (s0.updateNrVars alphaD lambda torque cont).nrDof = alphaD ∧
    (s0.updateNrVars alphaD lambda torque cont).nrFor = lambda ∧
    (s0.updateNrVars alphaD lambda torque cont).nrTor = torque ∧
    (∀ r c, (s0.updateNrVars alphaD lambda torque cont).AEq.coeff r c = 0) ∧
    (∀ i, MotionConstr.nrPoints ((s0.updateNrVars alphaD lambda torque cont).cont.take i)
      = Contact.nrPoints (cont.take i)) ∧
    MotionConstr.nrPoints (s0.updateNrVars alphaD lambda torque cont).cont
      = Contact.nrPoints cont ∧
    (∀ (i : Nat) (c : Contact), cont[i]? = some c →
      (s0.updateNrVars alphaD lambda torque cont).cont[i]?
      = some (MotionConstr.ContactData.mk (Jacobian.new c.bodyId) c.points c.normals)) ∧
    ((∀ c ∈ cont, c.points.length ≤ c.normals.length) →
      ∀ d ∈ (s0.updateNrVars alphaD lambda torque cont).cont,
        d.points.length ≤ d.normals.length) := by
  refine ⟨rfl, rfl, rfl, rfl, rfl, fun _ _ => rfl, fun i => ?_, ?_, fun i c hc => ?_,
    fun h d hd => ?_⟩
  · simp [MotionConstr.updateNrVars, MotionConstr.nrPoints, Contact.nrPoints, ← List.map_take,
      Function.comp_def]
  · simp [MotionConstr.updateNrVars, MotionConstr.nrPoints, Contact.nrPoints,
      Function.comp_def]
  · simp [MotionConstr.updateNrVars, hc]
  · simp only [MotionConstr.updateNrVars, List.mem_map] at hd
    obtain ⟨c, hc, rfl⟩ := hd
    exact h c hc

/-- C4, counterexample. Empty contact list, layout `(alphaD, lambda, torque) = (1, 2, 1)`
on the 1-DOF robot: `update` succeeds and writes the torque block `-1` into column 1,
the first force column, so not every force column of `AEq` is zero. -/
theorem motion_no_contacts_force_column_counterexample :
    ∃ s1, (MotionConstr.new.updateNrVars 1 2 1 []).update exMb exMbc = some s1 ∧
      s1.AEq.cols = 4 ∧ s1.AEq.coeff 0 1 = -1 := by
  obtain ⟨w1, w2, w3, w4, w5, _⟩ := MotionConstr.updateNrVars_wf MotionConstr.new 1 2 1 []
  obtain ⟨s1, e, _, r2, _, _, _, _, ft, _⟩ := motion_update_spec exMb exMbc
    (MotionConstr.new.updateNrVars 1 2 1 []) w1 w2 rfl (by simp [MotionConstr.updateNrVars])
    (by simp [MotionConstr.updateNrVars, MotionConstr.nrPoints]) (by decide)
  exact ⟨s1, e, r2, ft 0 0 (by decide) (by decide)⟩

/-- C4, amended. `MotionConstr` with zero contacts: for every layout
`(alphaD, lambda, torque)` on which `update` runs (`alphaD = mb.nrDof()`,
`joint(0).dof() + torque <= alphaD`) given to `updateNrVars` with an empty contact list,
`update` succeeds, the left `nrDof x nrDof` block of `AEq` equals `H` and `BEq = -C`; the
block `-I` of size `torque` stands at rows `[joint(0).dof(), joint(0).dof() + torque)`
and columns `[nrDof, nrDof + torque)`, that is from the first force column on, and every
other entry right of the `H` block is zero. Hence every force column is zero when
`torque = 0`, and with zero force and torque variables `AEq = H` exactly. -/
theorem motion_no_contacts (mb : MultiBody) (s0 : MotionConstr) (alphaD lambda torque : Nat)
    (mbc : MultiBodyConfig) (hA : alphaD = mb.nrDof) (hT : mb.joint0Dof + torque ≤ alphaD) :
    ∃ s1, (s0.updateNrVars alphaD lambda torque []).update mb mbc = some s1 ∧
      s1.AEq.rows = alphaD ∧ s1.AEq.cols = alphaD + lambda + torque ∧
      (∀ r c, r < alphaD → c < alphaD → s1.AEq.coeff r c = mbc.H r c) ∧
      s1.BEq.size = alphaD ∧ (∀ r, s1.BEq.coeff r = -mbc.C r) ∧
      (∀ a b, a < torque → b < torque →
        s1.AEq.coeff (mb.joint0Dof + a) (alphaD + b) = if a = b then -1 else 0) ∧
      (∀ r c, alphaD ≤ c →
        ¬ (mb.joint0Dof ≤ r ∧ r < mb.joint0Dof + torque ∧ c < alphaD + torque) →
        s1.AEq.coeff r c = 0) ∧
      (torque = 0 → ∀ r c, alphaD ≤ c → s1.AEq.coeff r c = 0) := by
  obtain ⟨w1, w2, _, _, _, w6, _⟩ := MotionConstr.updateNrVars_wf s0 alphaD lambda torque []
  obtain ⟨s1, e, r1, r2, r3, r4, fh, _, ft, fo⟩ := motion_update_spec mb mbc
    (s0.updateNrVars alphaD lambda torque []) w1 w2 hA
    (by simp [MotionConstr.updateNrVars])
    (by simp [MotionConstr.updateNrVars, MotionConstr.nrPoints]) hT
  have hP : MotionConstr.nrPoints (s0.updateNrVars alphaD lambda torque []).cont = 0 := by
    simp [MotionConstr.updateNrVars, MotionConstr.nrPoints]
  simp only [hP, Nat.add_zero] at ft fo
  have hz : ∀ r c, alphaD ≤ c →
      ¬ (mb.joint0Dof ≤ r ∧ r < mb.joint0Dof + torque ∧ c < alphaD + torque) →
      s1.AEq.coeff r c = 0 := fun r c hc hout => by
    rw [fo r c hc hout, w6 r c]
  refine ⟨s1, e, r1, r2, fh, by rw [r3, hA], r4, ft, hz, fun ht r c hc => ?_⟩
  exact hz r c hc (by omega)

/-- Witness of the amended C4, the scenario of the specification: no contact, layout
`(1, 0, 0)`, `H = [1]`, `C = [1/2]` give `AEq = [1]` and `BEq = [-1/2]`. -/
theorem motion_no_contacts_witness :
    (1 : Nat) = exMb.nrDof ∧ exMb.joint0Dof + 0 ≤ 1 ∧
    ∃ s1, (MotionConstr.new.updateNrVars 1 0 0 []).update exMb exMbc = some s1 ∧
      s1.AEq.rows = 1 ∧ s1.AEq.cols = 1 ∧ s1.AEq.coeff 0 0 = 1 ∧
      s1.BEq.size = 1 ∧ s1.BEq.coeff 0 = -(1 / 2) := by
  obtain ⟨s1, e, r1, r2, fh, r3, r4, _⟩ :=
    motion_no_contacts exMb MotionConstr.new 1 0 0 exMbc rfl (by decide)
  exact ⟨rfl, by decide, s1, e, r1, r2, fh 0 0 (by decide) (by decide), r3, r4 0⟩

/-- C5. Force block of `MotionConstr::update`: after `updateNrVars` with a layout on which
`update` runs (`alphaD = mb.nrDof()`, `joint(0).dof() + torque <= alphaD`, a normal for
every point, at most `lambda` points in all), `update` succeeds and for every contact `i`
and every point `j` of it the column of `AEq` at index `nrDof + k`, `k` the index of
`(i, j)` in the contact-major order of the points, equals `-(Jt)^T * normal_j`, with `Jt`
rows 3..5 of `fullJacobian(translateJacobian(jacobian, point_j))` of the Jacobian object
of the contact body: the body Jacobian translated to point `j` and expanded to all
DOF columns. -/
theorem motion_force_columns (mb : MultiBody) (s0 : MotionConstr)
    (alphaD lambda torque : Nat) (cont : List Contact) (mbc : MultiBodyConfig)
    (hA : alphaD = mb.nrDof) (hT : mb.joint0Dof + torque ≤ alphaD)
    (hn : ∀ c ∈ cont, c.points.length ≤ c.normals.length)
    (hP : Contact.nrPoints cont ≤ lambda) :
    ∃ s1, (s0.updateNrVars alphaD lambda torque cont).update mb mbc = some s1 ∧
      ∀ (i : Nat) (c : Contact) (j : Nat) (p n : Vector3d),
        cont[i]? = some c → c.points[j]? = some p → c.normals[j]? = some n →
        ∀ r, r < alphaD →
        s1.AEq.coeff r (alphaD + Contact.nrPoints (cont.take i) + j) =
          -(mbc.fullJacobian (Jacobian.new c.bodyId)
                (mbc.translateJacobian (Jacobian.new c.bodyId)
                  (mbc.jacobian (Jacobian.new c.bodyId)) p) 3 r * n.x +
            mbc.fullJacobian (Jacobian.new c.bodyId)
                (mbc.translateJacobian (Jacobian.new c.bodyId)
                  (mbc.jacobian (Jacobian.new c.bodyId)) p) 4 r * n.y +
            mbc.fullJacobian (Jacobian.new c.bodyId)
                (mbc.translateJacobian (Jacobian.new c.bodyId)
                  (mbc.jacobian (Jacobian.new c.bodyId)) p) 5 r * n.z) := by
  obtain ⟨w1, w2, _, _, _, _, w7, w8, w9, w10⟩ :=
    MotionConstr.updateNrVars_wf s0 alphaD lambda torque cont
  obtain ⟨s1, e, _, _, _, _, _, ff, _, _⟩ := motion_update_spec mb mbc
    (s0.updateNrVars alphaD lambda torque cont) w1 w2 hA (w10 hn)
    (by rw [w8]; exact hP) hT
  refine ⟨s1, e, fun i c j p n hc hp hnm r hr => ?_⟩
  have := ff i _ j p n (w9 i c hc) hp hnm r hr
  rw [w7 i] at this
  rw [show (s0.updateNrVars alphaD lambda torque cont).nrDof = alphaD from rfl] at this
  rw [this]
  simp only [MatrixXd.transTMul, MatrixXd.neg, MotionConstr.pointJac, fullJacobian]
  ring

/-- Witness of C5 on the 1-DOF robot with two contacts and the layout `(1, 2, 0)`. Body 3
translates along `z` and its point is the origin: normal `(0, 0, 1)` and translational
Jacobian column `(0, 0, 1)` give the force column `[-1]`, the scenario of the
specification. Body 4 turns about `x` and its point is `(0, 2, 0)`: the translated
Jacobian has the translational column `(0, 0, 2)`, where the body Jacobian has
`(0, 0, 0)`, and the force column is `[-2]`. -/
theorem motion_force_columns_witness :
    (1 : Nat) = exMb.nrDof ∧ exMb.joint0Dof + 0 ≤ 1 ∧
    (∀ c ∈ [exContact, exContactTurn], c.points.length ≤ c.normals.length) ∧
    Contact.nrPoints [exContact, exContactTurn] ≤ 2 ∧
    (exMbcTurn.jacobian (Jacobian.new 4)).coeff 5 0 = 0 ∧
    ∃ s1, (MotionConstr.new.updateNrVars 1 2 0 [exContact, exContactTurn]).update exMb
        exMbcTurn = some s1 ∧
      s1.AEq.coeff 0 1 = -1 ∧ s1.AEq.coeff 0 2 = -2 := by
  have hn : ∀ c ∈ [exContact, exContactTurn], c.points.length ≤ c.normals.length := by
    intro c hc
    rcases List.mem_cons.1 hc with h | h
    · rw [h]; decide
    · rw [List.mem_singleton.1 h]; decide
  have hP : Contact.nrPoints [exContact, exContactTurn] ≤ 2 := by decide
  obtain ⟨s1, e, f⟩ := motion_force_columns exMb MotionConstr.new 1 2 0
    [exContact, exContactTurn] exMbcTurn rfl (by decide) hn hP
  refine ⟨rfl, by decide, hn, hP, by simp [exMbcTurn, Jacobian.new], s1, e, ?_, ?_⟩
  · have := f 0 exContact 0 ⟨0, 0, 0⟩ ⟨0, 0, 1⟩ rfl rfl rfl 0 (by decide)
    have hcol : 1 + Contact.nrPoints (List.take 0 [exContact, exContactTurn]) + 0 = 1 := by
      decide
    rw [hcol] at this
    rw [this]
    norm_num [exMbcTurn, exMbc, exContact, Jacobian.new]
  · have := f 1 exContactTurn 0 ⟨0, 2, 0⟩ ⟨0, 0, 1⟩ rfl rfl rfl 0 (by decide)
    have hcol : 1 + Contact.nrPoints (List.take 1 [exContact, exContactTurn]) + 0 = 2 := by
      decide
    rw [hcol] at this
    rw [this]
    norm_num [exMbcTurn, exMbc, exContactTurn, Jacobian.new]

/-- C6, counterexample. One contact with one point, layout
`(alphaD, lambda, torque) = (1, 2, 1)` on the 1-DOF robot: the torque segment of the
layout is column `1 + 2 = 3`, but `update` writes the torque block `-1` into column
`1 + 1 = 2`, a force column, and leaves column 3 zero. -/
theorem motion_torque_block_position_counterexample :
    ∃ s1, (MotionConstr.new.updateNrVars 1 2 1 [exContact]).update exMb exMbc = some s1 ∧
      s1.AEq.cols = 4 ∧ s1.AEq.coeff (exMb.joint0Dof + 0) (1 + 2 + 0) = 0 ∧
      s1.AEq.coeff (exMb.joint0Dof + 0) (1 + 1 + 0) = -1 := by
  obtain ⟨w1, w2, _, _, _, w6, _, w8, _, w10⟩ :=
    MotionConstr.updateNrVars_wf MotionConstr.new 1 2 1 [exContact]
  have hn : ∀ c ∈ [exContact], c.points.length ≤ c.normals.length := by
    intro c hc
    rw [List.mem_singleton.1 hc]
    decide
  have hP : MotionConstr.nrPoints (MotionConstr.new.updateNrVars 1 2 1 [exContact]).cont = 1 := by
    rw [w8]; decide
  obtain ⟨s1, e, _, r2, _, _, _, _, ft, fo⟩ := motion_update_spec exMb exMbc
    (MotionConstr.new.updateNrVars 1 2 1 [exContact]) w1 w2 rfl (w10 hn)
    (by rw [hP]; decide) (by decide)
  rw [hP] at ft fo
  refine ⟨s1, e, r2, ?_, ft 0 0 (by decide) (by decide)⟩
  rw [fo (exMb.joint0Dof + 0) (1 + 2 + 0) (by decide) (by decide)]
  exact w6 _ _

/-- C6, amended. Torque block of `MotionConstr::update`: after `updateNrVars` with a layout
on which `update` runs (`alphaD = mb.nrDof()`, `joint(0).dof() + torque <= alphaD`, a
normal for every point, at most `lambda` points in all), `update` succeeds and the torque
block of `AEq` is minus the identity of size `nrTor` at rows
`[joint(0).dof(), joint(0).dof() + nrTor)` and columns `[nrDof + P, nrDof + P + nrTor)`,
where `P` is the total number of contact points, immediately after the force columns
`update` has written; this is the torque segment `[nrDof + nrFor, nrDof + nrFor + nrTor)`
of the shared layout when the force-variable count `nrFor` equals `P`. -/
theorem motion_torque_block (mb : MultiBody) (s0 : MotionConstr)
    (alphaD lambda torque : Nat) (cont : List Contact) (mbc : MultiBodyConfig)
    (hA : alphaD = mb.nrDof) (hT : mb.joint0Dof + torque ≤ alphaD)
    (hn : ∀ c ∈ cont, c.points.length ≤ c.normals.length)
    (hP : Contact.nrPoints cont ≤ lambda) :
    ∃ s1, (s0.updateNrVars alphaD lambda torque cont).update mb mbc = some s1 ∧
      (∀ a b, a < torque → b < torque →
        s1.AEq.coeff (mb.joint0Dof + a) (alphaD + Contact.nrPoints cont + b) =
          if a = b then -1 else 0) ∧
      (Contact.nrPoints cont = lambda → ∀ a b, a < torque → b < torque →
        s1.AEq.coeff (mb.joint0Dof + a) (alphaD + lambda + b) = if a = b then -1 else 0) := by
  obtain ⟨w1, w2, _, _, _, _, _, w8, _, w10⟩ :=
    MotionConstr.updateNrVars_wf s0 alphaD lambda torque cont
  obtain ⟨s1, e, _, _, _, _, _, _, ft, _⟩ := motion_update_spec mb mbc
    (s0.updateNrVars alphaD lambda torque cont) w1 w2 hA (w10 hn)
    (by rw [w8]; exact hP) hT
  rw [w8] at ft
  refine ⟨s1, e, ft, fun hl a b ha hb => ?_⟩
  rw [← hl]
  exact ft a b ha hb

/-- Witness of the amended C6: one contact with one point, layout `(1, 1, 1)`: the torque
block `-1` stands in column `1 + 1 = 2`, the torque segment. -/
theorem motion_torque_block_witness :
    (1 : Nat) = exMb.nrDof ∧ exMb.joint0Dof + 1 ≤ 1 ∧
    (∀ c ∈ [exContact], c.points.length ≤ c.normals.length) ∧
    Contact.nrPoints [exContact] ≤ 1 ∧ Contact.nrPoints [exContact] = 1 ∧
    ∃ s1, (MotionConstr.new.updateNrVars 1 1 1 [exContact]).update exMb exMbc = some s1 ∧
      s1.AEq.coeff (exMb.joint0Dof + 0) (1 + 1 + 0) = -1 := by
  have hn : ∀ c ∈ [exContact], c.points.length ≤ c.normals.length := by
    intro c hc
    rw [List.mem_singleton.1 hc]
    decide
  obtain ⟨s1, e, _, f⟩ := motion_torque_block exMb MotionConstr.new 1 1 1 [exContact] exMbc
    rfl (by decide) hn (by decide)
  exact ⟨rfl, by decide, hn, by decide, by decide, s1, e,
    f (by decide) 0 0 (by decide) (by decide)⟩

/-- C7. Force-variable box bounds of `MotionConstr`: for every contact list and every
layout `(alphaD, lambda, torque)`, after `updateNrVars` the vectors `Lower()` and
`Upper()` have length `lambda`, every entry of `Lower()` is `0` and every entry of
`Upper()` is `+infinity`, `beginVar() = alphaD`, and `update` leaves both vectors (and
`beginVar()`) unchanged. -/
theorem motion_force_bounds (s0 : MotionConstr) (alphaD lambda torque : Nat)
    (cont : List Contact) :
    (s0.updateNrVars alphaD lambda torque cont).Lower.length = lambda ∧
    (s0.updateNrVars alphaD lambda torque cont).Upper.length = lambda ∧
    (∀ k, k < lambda → (s0.updateNrVars alphaD lambda torque cont).Lower[k]? = some 0) ∧
    (∀ k, k < lambda → (s0.updateNrVars alphaD lambda torque cont).Upper[k]? = some ⊤) ∧
    (s0.updateNrVars alphaD lambda torque cont).beginVar = alphaD ∧
    ∀ (mb : MultiBody) (mbc : MultiBodyConfig) (s1 : MotionConstr),
      (s0.updateNrVars alphaD lambda torque cont).update mb mbc = some s1 →
      s1.Lower = (s0.updateNrVars alphaD lambda torque cont).Lower ∧
      s1.Upper = (s0.updateNrVars alphaD lambda torque cont).Upper ∧
      s1.beginVar = alphaD := by
  refine ⟨by simp [MotionConstr.Lower, MotionConstr.updateNrVars],
    by simp [MotionConstr.Upper, MotionConstr.updateNrVars],
    fun k hk => by simp [MotionConstr.Lower, MotionConstr.updateNrVars, hk],
    fun k hk => by simp [MotionConstr.Upper, MotionConstr.updateNrVars, hk],
    rfl, fun mb mbc s1 h => ?_⟩
  obtain ⟨b1, b2, b3, _, _⟩ := MotionConstr.update_bounds h
  exact ⟨b1, b2, b3⟩

/-- Witness of C7: one contact, layout `(1, 1, 0)`; `update` succeeds and the bounds of
the single force variable stay `0` and `+infinity`. -/
theorem motion_force_bounds_witness :
    ∃ s1, (MotionConstr.new.updateNrVars 1 1 0 [exContact]).update exMb exMbc = some s1 ∧
      s1.Lower = [0] ∧ s1.Upper = [⊤] ∧ s1.beginVar = 1 := by
  obtain ⟨w1, w2, _, _, _, _, _, w8, _, w10⟩ :=
    MotionConstr.updateNrVars_wf MotionConstr.new 1 1 0 [exContact]
  have hn : ∀ c ∈ [exContact], c.points.length ≤ c.normals.length := by
    intro c hc
    rw [List.mem_singleton.1 hc]
    decide
  obtain ⟨s1, e, _⟩ := motion_update_spec exMb exMbc
    (MotionConstr.new.updateNrVars 1 1 0 [exContact]) w1 w2 rfl (w10 hn)
    (by rw [w8]; decide) (by decide)
  obtain ⟨_, _, _, _, _, f⟩ := motion_force_bounds MotionConstr.new 1 1 0 [exContact]
  obtain ⟨g1, g2, g3⟩ := f exMb exMbc s1 e
  exact ⟨s1, e, g1, g2, g3⟩

/-! ### SelfCollisionConstr: pair management -/

theorem eraseFirst_of_forall_not (b1 b2 : Int) :
    ∀ l : List CollData, (∀ d ∈ l, ¬ (d.body1Id = b1 ∧ d.body2Id = b2)) →
      eraseFirst b1 b2 l = l := by
  intro l
  induction l with
  | nil => intro _; rfl
  | cons e es ih =>
    intro h
    have he : ¬ (e.body1Id = b1 ∧ e.body2Id = b2) := h e (List.mem_cons_self _ _)
    rw [eraseFirst, if_neg he, ih fun d hd => h d (List.mem_cons_of_mem _ hd)]

theorem eraseFirst_split (b1 b2 : Int) :
    ∀ l : List CollData, (∃ d ∈ l, d.body1Id = b1 ∧ d.body2Id = b2) →
      ∃ pre d post, l = pre ++ d :: post ∧
        (∀ e ∈ pre, ¬ (e.body1Id = b1 ∧ e.body2Id = b2)) ∧
        (d.body1Id = b1 ∧ d.body2Id = b2) ∧ eraseFirst b1 b2 l = pre ++ post := by
  intro l
  induction l with
  | nil => intro h; obtain ⟨d, hd, _⟩ := h; simp at hd
  | cons e es ih =>
    intro h
    by_cases he : e.body1Id = b1 ∧ e.body2Id = b2
    · exact ⟨[], e, es, rfl, by simp, he, by rw [eraseFirst, if_pos he]; rfl⟩
    · obtain ⟨d, hd, hm⟩ := h
      have hd2 : d ∈ es := by
        rcases List.mem_cons.1 hd with rfl | h2
        · exact absurd hm he
        · exact h2
      obtain ⟨pre, x, post, e1, e2, e3, e4⟩ := ih ⟨d, hd2, hm⟩
      refine ⟨e :: pre, x, post, by rw [e1]; rfl, ?_, e3, by rw [eraseFirst, if_neg he, e4]; rfl⟩
      intro y hy
      rcases List.mem_cons.1 hy with rfl | h2
      · exact he
      · exact e2 y h2

theorem eraseFirst_append_of_not (b1 b2 : Int) (r : List CollData) :
    ∀ l : List CollData, (∀ d ∈ l, ¬ (d.body1Id = b1 ∧ d.body2Id = b2)) →
      eraseFirst b1 b2 (l ++ r) = l ++ eraseFirst b1 b2 r := by
  intro l
  induction l with
  | nil => intro _; rfl
  | cons e es ih =>
    intro h
    have he : ¬ (e.body1Id = b1 ∧ e.body2Id = b2) := h e (List.mem_cons_self _ _)
    rw [List.cons_append, eraseFirst, if_neg he,
      ih fun d hd => h d (List.mem_cons_of_mem _ hd), List.cons_append]

theorem eraseFirst_append_of_mem (b1 b2 : Int) (r : List CollData) (l : List CollData)
    (h : ∃ d ∈ l, d.body1Id = b1 ∧ d.body2Id = b2) :
    eraseFirst b1 b2 (l ++ r) = eraseFirst b1 b2 l ++ r := by
  obtain ⟨pre, d, post, e1, e2, e3, e4⟩ := eraseFirst_split b1 b2 l h
  rw [e4, e1, List.append_assoc, eraseFirst_append_of_not b1 b2 _ pre e2, List.cons_append,
    eraseFirst, if_pos e3, List.append_assoc]

/-- C11. Pair management of `SelfCollisionConstr`: `rmCollision(b1, b2)` leaves the state
unchanged when no monitored pair has `body1Id = b1` and `body2Id = b2`; otherwise it
removes exactly one pair, the first such pair in insertion order, and every other pair
stays, unchanged (with its `di`, `ds`, damping and previous normal) and in the same
relative order; `reset()` leaves the list empty, so `nrInEqLine() = 0`. -/
theorem selfCollision_rmCollision_reset (s : SelfCollisionConstr) (b1 b2 : Int) :
    ((∀ d ∈ s.dataVec, ¬ (d.body1Id = b1 ∧ d.body2Id = b2)) → s.rmCollision b1 b2 = s) ∧
    ((∃ d ∈ s.dataVec, d.body1Id = b1 ∧ d.body2Id = b2) →
      ∃ pre d post, s.dataVec = pre ++ d :: post ∧
        (∀ e ∈ pre, ¬ (e.body1Id = b1 ∧ e.body2Id = b2)) ∧
        (d.body1Id = b1 ∧ d.body2Id = b2) ∧
        (s.rmCollision b1 b2).dataVec = pre ++ post ∧
        (s.rmCollision b1 b2).nrInEqLine + 1 = s.nrInEqLine) ∧
    s.reset.dataVec = [] ∧ s.reset.nrInEqLine = 0 := by
  refine ⟨fun h => ?_, fun h => ?_, rfl, rfl⟩
  · simp only [SelfCollisionConstr.rmCollision, eraseFirst_of_forall_not b1 b2 _ h]
  · obtain ⟨pre, d, post, e1, e2, e3, e4⟩ := eraseFirst_split b1 b2 s.dataVec h
    refine ⟨pre, d, post, e1, e2, e3, e4, ?_⟩
    simp only [SelfCollisionConstr.nrInEqLine, SelfCollisionConstr.rmCollision, e4]
    rw [e1]
    simp only [List.length_append, List.length_cons]
    omega

/-- Witness of C11 at `exColl 3`, which monitors the single pair (1, 2): removing (5, 6)
changes nothing, removing (1, 2) leaves no pair. -/
theorem selfCollision_rmCollision_reset_witness :
    (∀ d ∈ (exColl 3).dataVec, ¬ (d.body1Id = 5 ∧ d.body2Id = 6)) ∧
    (exColl 3).rmCollision 5 6 = exColl 3 ∧
    (∃ d ∈ (exColl 3).dataVec, d.body1Id = 1 ∧ d.body2Id = 2) ∧
    ((exColl 3).rmCollision 1 2).nrInEqLine + 1 = (exColl 3).nrInEqLine ∧
    (exColl 3).reset.nrInEqLine = 0 := by
  have h1 : ∀ d ∈ (exColl 3).dataVec, ¬ (d.body1Id = 5 ∧ d.body2Id = 6) := by
    intro d hd
    have : d = exPair 3 := by
      simpa [exColl, SelfCollisionConstr.updateNrVars, SelfCollisionConstr.addCollision,
        SelfCollisionConstr.new, exPair] using hd
    subst this
    simp [exPair, CollData.new]
  have h2 : ∃ d ∈ (exColl 3).dataVec, d.body1Id = 1 ∧ d.body2Id = 2 :=
    ⟨exPair 3, by simp [exColl, SelfCollisionConstr.updateNrVars,
      SelfCollisionConstr.addCollision, SelfCollisionConstr.new, exPair], rfl, rfl⟩
  obtain ⟨_, _, _, _, _, _, _, hn⟩ := (selfCollision_rmCollision_reset (exColl 3) 1 2).2.1 h2
  exact ⟨h1, (selfCollision_rmCollision_reset (exColl 3) 5 6).1 h1, h2, hn,
    (selfCollision_rmCollision_reset (exColl 3) 5 6).2.2.2⟩

/-- C18. Add/remove state round trip: when no monitored pair has the ids `(b1, b2)`,
`addCollision(b1, b2, ...)` followed by `rmCollision(b1, b2)` yields exactly the original
state (same pairs, same order, same parameters and previous normals); when the list
already contains a pair with ids `(b1, b2)`, the same sequence removes the first such
older pair and keeps the newly added one at the end of the list. -/
theorem selfCollision_add_rm_state (mb : MultiBody) (s : SelfCollisionConstr)
    (b1 : Int) (o1 : Nat) (b2 : Int) (o2 : Nat) (di ds damping : ℚ) :
    ((∀ d ∈ s.dataVec, ¬ (d.body1Id = b1 ∧ d.body2Id = b2)) →
      (s.addCollision mb b1 o1 b2 o2 di ds damping).rmCollision b1 b2 = s) ∧
    ((∃ d ∈ s.dataVec, d.body1Id = b1 ∧ d.body2Id = b2) →
      ∃ pre d post, s.dataVec = pre ++ d :: post ∧
        (∀ e ∈ pre, ¬ (e.body1Id = b1 ∧ e.body2Id = b2)) ∧
        (d.body1Id = b1 ∧ d.body2Id = b2) ∧
        ((s.addCollision mb b1 o1 b2 o2 di ds damping).rmCollision b1 b2).dataVec
          = pre ++ post ++ [CollData.new mb b1 o1 b2 o2 di ds damping]) := by
  refine ⟨fun h => ?_, fun h => ?_⟩
  · have : eraseFirst b1 b2 (s.dataVec ++ [CollData.new mb b1 o1 b2 o2 di ds damping])
        = s.dataVec := by
      rw [eraseFirst_append_of_not b1 b2 _ _ h]
      simp [eraseFirst, CollData.new]
    simp only [SelfCollisionConstr.rmCollision, SelfCollisionConstr.addCollision, this]
  · obtain ⟨pre, d, post, e1, e2, e3, e4⟩ := eraseFirst_split b1 b2 s.dataVec h
    refine ⟨pre, d, post, e1, e2, e3, ?_⟩
    simp only [SelfCollisionConstr.rmCollision, SelfCollisionConstr.addCollision]
    rw [eraseFirst_append_of_mem b1 b2 _ _ h, e4]

/-- Witness of C18 at `exColl 3`, which monitors the single pair (1, 2): adding and
removing (5, 6) gives `exColl 3` back; adding and removing (1, 2) again leaves only the
newly added pair. -/
theorem selfCollision_add_rm_state_witness :
    (∀ d ∈ (exColl 3).dataVec, ¬ (d.body1Id = 5 ∧ d.body2Id = 6)) ∧
    ((exColl 3).addCollision exMb 5 7 6 8 4 2 1).rmCollision 5 6 = exColl 3 ∧
    (∃ d ∈ (exColl 3).dataVec, d.body1Id = 1 ∧ d.body2Id = 2) ∧
    (((exColl 3).addCollision exMb 1 7 2 8 4 2 1).rmCollision 1 2).dataVec
      = [CollData.new exMb 1 7 2 8 4 2 1] := by
  have h1 : ∀ d ∈ (exColl 3).dataVec, ¬ (d.body1Id = 5 ∧ d.body2Id = 6) := by
    intro d hd
    have : d = exPair 3 := by
      simpa [exColl, SelfCollisionConstr.updateNrVars, SelfCollisionConstr.addCollision,
        SelfCollisionConstr.new, exPair] using hd
    subst this
    simp [exPair, CollData.new]
  have h2 : ∃ d ∈ (exColl 3).dataVec, d.body1Id = 1 ∧ d.body2Id = 2 :=
    ⟨exPair 3, by simp [exColl, SelfCollisionConstr.updateNrVars,
      SelfCollisionConstr.addCollision, SelfCollisionConstr.new, exPair], rfl, rfl⟩
  refine ⟨h1, (selfCollision_add_rm_state exMb (exColl 3) 5 7 6 8 4 2 1).1 h1, h2, ?_⟩
  obtain ⟨pre, d, post, e1, _, _, e4⟩ :=
    (selfCollision_add_rm_state exMb (exColl 3) 1 7 2 8 4 2 1).2 h2
  have hlen : (exColl 3).dataVec.length = 1 := rfl
  rw [e1] at hlen
  simp only [List.length_append, List.length_cons] at hlen
  have hp : pre = [] := List.length_eq_zero.1 (by omega)
  have hq : post = [] := List.length_eq_zero.1 (by omega)
  rw [e4, hp, hq]
  rfl

/-! ### SelfCollisionConstr: the pairs after `update` -/

theorem updatePair_data {mb : MultiBody} {mbc : MultiBodyConfig} {step : ℚ} {i : Nat}
    {d : CollData} {A : MatrixXd} {B : VectorXd} {r : CollData × MatrixXd × VectorXd}
    (h : updatePair mb mbc step i d A B = some r) : r.1 = d.next mbc := by
  unfold updatePair at h
  unfold CollData.next
  split at h
  · rename_i hact
    obtain ⟨A1, _, h⟩ := Option.bind_eq_some.1 h
    obtain ⟨B1, _, h⟩ := Option.bind_eq_some.1 h
    cases h
    rw [if_pos hact]
  · rename_i hact
    obtain ⟨A1, _, h⟩ := Option.bind_eq_some.1 h
    obtain ⟨B1, _, h⟩ := Option.bind_eq_some.1 h
    cases h
    rw [if_neg hact]

theorem updateLoop_data (mb : MultiBody) (mbc : MultiBodyConfig) (step : ℚ) :
    ∀ (l : List CollData) (i : Nat) (A : MatrixXd) (B : VectorXd)
      (r : List CollData × MatrixXd × VectorXd),
      updateLoop mb mbc step i l A B = some r → r.1 = l.map (CollData.next mbc) := by
  intro l
  induction l with
  | nil =>
    intro i A B r h
    simp only [updateLoop, Option.some.injEq] at h
    subst h
    rfl
  | cons d ds ih =>
    intro i A B r h
    simp only [updateLoop] at h
    obtain ⟨r0, h0, h⟩ := Option.bind_eq_some.1 h
    obtain ⟨r1, h1, h⟩ := Option.bind_eq_some.1 h
    cases h
    simp only [List.map_cons, updatePair_data h0, ih _ _ _ _ h1]

theorem selfCollision_update_data {mb : MultiBody} {mbc : MultiBodyConfig}
    {s s1 : SelfCollisionConstr} (h : s.update mb mbc = some s1) :
    s1.dataVec = s.dataVec.map (CollData.next mbc) ∧ s1.step = s.step ∧
    s1.nrVars = s.nrVars := by
  unfold SelfCollisionConstr.update at h
  obtain ⟨r, hr, h⟩ := Option.bind_eq_some.1 h
  cases h
  exact ⟨updateLoop_data mb mbc s.step _ _ _ _ r hr, rfl, rfl⟩

/-- C13, counterexample. After `update` on `exColl 3` (active pair, closest point of
body 1 at `(2, 0, 0)`) the field `jacB1` of the pair has the point `(2, 0, 0)`, whereas
it had the origin before: `update` changes a field of the pair other than the stored
normal. -/
theorem selfCollision_update_moves_jacobian_counterexample :
    (exColl 3).dataVec[0]? = some (exPair 3) ∧ (exPair 3).jacB1.point = ⟨0, 0, 0⟩ ∧
    ∃ s1 d1, (exColl 3).update exMb exMbc = some s1 ∧ s1.dataVec[0]? = some d1 ∧
      d1.jacB1.point = ⟨2, 0, 0⟩ := by
  obtain ⟨s1, e, _⟩ := selfCollision_update_spec (exColl_reachable 3) exMbc (by decide)
  have hact : (exPair 3).dist exMbc < (exPair 3).di := by
    rw [exPair_dist]; norm_num [exPair, CollData.new]
  refine ⟨rfl, rfl, s1, (exPair 3).next exMbc, e, ?_, ?_⟩
  · rw [(selfCollision_update_data e).1]
    rfl
  · rw [CollData.next, if_pos hact]
    simp [CollData.jacB1At, CollData.pb1, CollData.closest, exMbc]

/-- C13, amended. Previous-normal cache: in every state the constraint can be in, with
`mb.nrDof() <= nrVars`, `update` succeeds and keeps the pairs in place; for every
monitored pair the stored previous normal afterwards equals this cycle's
`n = (pb1 - pb2)/d`, both when `d < di` and when `d >= di`; `di`, `ds`, damping, the body
ids, the body indices and the proxy pair are unchanged; the Jacobian objects `jacB1` and
`jacB2` keep their body and are unchanged when `d >= di`, and when `d < di` their points
are re-targeted to the closest points in the body frames. A freshly added pair starts
with previous normal zero. -/
theorem selfCollision_previous_normal (mb : MultiBody) (s : SelfCollisionConstr)
    (hs : SelfCollisionConstr.Reachable mb s) (mbc : MultiBodyConfig)
    (hdof : mb.nrDof ≤ s.nrVars) :
    (∃ s1, s.update mb mbc = some s1 ∧ s1.dataVec.length = s.dataVec.length ∧
      ∀ (i : Nat) (d : CollData), s.dataVec[i]? = some d →
        ∃ d1 : CollData, s1.dataVec[i]? = some d1 ∧ d1.normVecDist = d.normal mbc ∧
          d1.di = d.di ∧ d1.ds = d.ds ∧ d1.damping = d.damping ∧
          d1.body1Id = d.body1Id ∧ d1.body2Id = d.body2Id ∧
          d1.body1 = d.body1 ∧ d1.body2 = d.body2 ∧ d1.pair = d.pair ∧
          d1.jacB1.bodyId = d.jacB1.bodyId ∧ d1.jacB2.bodyId = d.jacB2.bodyId ∧
          (d.di ≤ d.dist mbc → d1.jacB1 = d.jacB1 ∧ d1.jacB2 = d.jacB2) ∧
          (d.dist mbc < d.di →
            d1.jacB1.point = d.pb1 mbc ∧ d1.jacB2.point = d.pb2 mbc)) ∧
    ∀ (b1 : Int) (o1 : Nat) (b2 : Int) (o2 : Nat) (di ds damping : ℚ),
      (CollData.new mb b1 o1 b2 o2 di ds damping).normVecDist = Vector3d.zero := by
  refine ⟨?_, fun _ _ _ _ _ _ _ => rfl⟩
  obtain ⟨s1, e, _⟩ := selfCollision_update_spec hs mbc hdof
  have hd := (selfCollision_update_data e).1
  refine ⟨s1, e, by rw [hd, List.length_map], fun i d hi => ?_⟩
  refine ⟨d.next mbc, by rw [hd, List.getElem?_map, hi]; rfl, ?_⟩
  unfold CollData.next
  split
  · rename_i hact
    exact ⟨rfl, rfl, rfl, rfl, rfl, rfl, rfl, rfl, rfl, rfl, rfl,
      fun hfar => absurd hact (not_lt.2 hfar), fun _ => ⟨rfl, rfl⟩⟩
  · rename_i hact
    exact ⟨rfl, rfl, rfl, rfl, rfl, rfl, rfl, rfl, rfl, rfl, rfl,
      fun _ => ⟨rfl, rfl⟩, fun h => absurd h hact⟩

/-- Witness of the amended C13 at `exColl 3`: after `update` the stored normal of the
pair is `(1, 0, 0)`, its `di` is still 3. -/
theorem selfCollision_previous_normal_witness :
    SelfCollisionConstr.Reachable exMb (exColl 3) ∧ exMb.nrDof ≤ (exColl 3).nrVars ∧
    (exColl 3).dataVec[0]? = some (exPair 3) ∧
    ∃ s1 d1, (exColl 3).update exMb exMbc = some s1 ∧ s1.dataVec[0]? = some d1 ∧
      d1.normVecDist = ⟨1, 0, 0⟩ ∧ d1.di = 3 := by
  obtain ⟨s1, e, _, f⟩ :=
    (selfCollision_previous_normal exMb (exColl 3) (exColl_reachable 3) exMbc (by decide)).1
  obtain ⟨d1, g1, g2, g3, _⟩ := f 0 (exPair 3) rfl
  refine ⟨exColl_reachable 3, by decide, rfl, s1, d1, e, g1, ?_, ?_⟩
  · rw [g2, exPair_normal]
  · rw [g3]; rfl

/-! ### SelfCollisionConstr: block dimensions -/

/-- C14, counterexample. In `exColl 3`, reached by `addCollision` and `updateNrVars(1, 0, 0)`
from the constructor, `nrInEqLine() = 1` and the layout total is 1, but `AInEq` is still
`0 x 0` and `BInEq` is empty. -/
theorem selfCollision_block_dims_counterexample :
    SelfCollisionConstr.Reachable exMb (exColl 3) ∧
    (exColl 3).nrInEqLine = 1 ∧ (exColl 3).nrVars = 1 ∧
    (exColl 3).AInEq.rows = 0 ∧ (exColl 3).BInEq.size = 0 ∧ (exColl 3).AInEq.cols = 0 :=
  ⟨exColl_reachable 3, rfl, rfl, rfl, rfl, rfl⟩

/-- C14, amended. Block dimensions of `SelfCollisionConstr`: in every state the constraint
can be in, the length of `BInEq` equals the number of rows of `AInEq`; after every
`update` that returns, the number of rows of `AInEq` and the length of `BInEq` equal
`nrInEqLine()` and the number of columns of `AInEq` equals `nrVars`, the layout total
`alphaD + lambda + torque` of the last `updateNrVars` (and `update` returns when
`mb.nrDof() <= nrVars`); `addCollision`, `rmCollision`, `reset` and `updateNrVars` leave
the blocks as they are, the resize being deferred to the next `update`. -/
theorem selfCollision_block_dims (mb : MultiBody) (s : SelfCollisionConstr)
    (hs : SelfCollisionConstr.Reachable mb s) :
    s.BInEq.size = s.AInEq.rows ∧
    (∀ (mbc : MultiBodyConfig) (s1 : SelfCollisionConstr), s.update mb mbc = some s1 →
      s1.AInEq.rows = s1.nrInEqLine ∧ s1.BInEq.size = s1.nrInEqLine ∧
      s1.AInEq.cols = s1.nrVars) ∧
    (∀ mbc : MultiBodyConfig, mb.nrDof ≤ s.nrVars → ∃ s1, s.update mb mbc = some s1) ∧
    (∀ (b1 : Int) (o1 : Nat) (b2 : Int) (o2 : Nat) (di ds damping : ℚ),
      (s.addCollision mb b1 o1 b2 o2 di ds damping).blockDims = s.blockDims) ∧
    (∀ b1 b2 : Int, (s.rmCollision b1 b2).blockDims = s.blockDims) ∧
    s.reset.blockDims = s.blockDims ∧
    (∀ alphaD lambda torque : Nat,
      (s.updateNrVars alphaD lambda torque).blockDims = s.blockDims ∧
      (s.updateNrVars alphaD lambda torque).nrVars = alphaD + lambda + torque) := by
  obtain ⟨i1, _⟩ := selfCollision_reachable_inv hs
  refine ⟨i1, fun mbc s1 h => ?_, fun mbc hdof => ?_, fun _ _ _ _ _ _ _ => rfl,
    fun _ _ => rfl, rfl, fun _ _ _ => ⟨rfl, rfl⟩⟩
  · obtain ⟨hd, _, hv⟩ := selfCollision_update_data h
    have hlen : s1.nrInEqLine = s.dataVec.length := by
      simp only [SelfCollisionConstr.nrInEqLine, hd, List.length_map]
    have hm := SelfCollisionConstr.update_blockDims mb mbc s
    rw [h, updateLoop_dims, Option.map_some'] at hm
    rw [hlen, hv]
    by_cases hres : s.AInEq.rows ≠ s.dataVec.length ∨ s.AInEq.cols ≠ s.nrVars
    · simp only [if_pos hres] at hm
      by_cases hc : s.dataVec.length = 0 ∨
          (0 + s.dataVec.length ≤ (MatrixXd.zero s.dataVec.length s.nrVars).rows ∧
            mb.nrDof ≤ (MatrixXd.zero s.dataVec.length s.nrVars).cols ∧
            0 + s.dataVec.length ≤ (VectorXd.zero s.dataVec.length).size)
      · rw [if_pos hc] at hm
        simp only [Option.some.injEq, SelfCollisionConstr.blockDims, Prod.mk.injEq,
          MatrixXd.zero, VectorXd.zero] at hm
        exact ⟨hm.1, hm.2.2, hm.2.1⟩
      · rw [if_neg hc] at hm
        cases hm
    · simp only [if_neg hres] at hm
      have hr : s.AInEq.rows = s.dataVec.length := by
        by_contra hne; exact hres (Or.inl hne)
      have hcl : s.AInEq.cols = s.nrVars := by
        by_contra hne; exact hres (Or.inr hne)
      by_cases hc : s.dataVec.length = 0 ∨
          (0 + s.dataVec.length ≤ s.AInEq.rows ∧ mb.nrDof ≤ s.AInEq.cols ∧
            0 + s.dataVec.length ≤ s.BInEq.size)
      · rw [if_pos hc] at hm
        simp only [Option.some.injEq, SelfCollisionConstr.blockDims, Prod.mk.injEq] at hm
        obtain ⟨m1, m2, m3⟩ := hm
        exact ⟨by omega, by omega, by omega⟩
      · rw [if_neg hc] at hm
        cases hm
  · obtain ⟨s1, e, _⟩ := selfCollision_update_spec hs mbc hdof
    exact ⟨s1, e⟩

/-- Witness of the amended C14 at `exColl 3`: `update` returns and leaves a `1 x 1` block
`AInEq` and a bound of size 1, for one monitored pair and one variable. -/
theorem selfCollision_block_dims_witness :
    SelfCollisionConstr.Reachable exMb (exColl 3) ∧ exMb.nrDof ≤ (exColl 3).nrVars ∧
    ∃ s1, (exColl 3).update exMb exMbc = some s1 ∧ s1.nrInEqLine = 1 ∧ s1.nrVars = 1 ∧
      s1.AInEq.rows = 1 ∧ s1.BInEq.size = 1 ∧ s1.AInEq.cols = 1 := by
  obtain ⟨_, f, g, _⟩ := selfCollision_block_dims exMb (exColl 3) (exColl_reachable 3)
  obtain ⟨s1, e⟩ := g exMbc (by decide)
  obtain ⟨r1, r2, r3⟩ := f exMbc s1 e
  obtain ⟨hd, _, hv⟩ := selfCollision_update_data e
  have hl : s1.nrInEqLine = 1 := by
    simp only [SelfCollisionConstr.nrInEqLine, hd, List.length_map]
    rfl
  have hn : s1.nrVars = 1 := by rw [hv]; rfl
  exact ⟨exColl_reachable 3, by decide, s1, e, hl, hn, by rw [r1, hl], by rw [r2, hl],
    by rw [r3, hn]⟩

/-! ### SelfCollisionConstr: the bound of an active pair -/

theorem transMulVec_zero (J : MatrixXd) (a : VectorXd)
    (h : ∀ k, k < J.cols → a.coeff k = 0) : J.transMulVec a = ⟨0, 0, 0⟩ := by
  have hz : ∀ r, (∑ c ∈ Finset.range J.cols, J.coeff r c * a.coeff c) = 0 := fun r =>
    Finset.sum_eq_zero fun c hc => by rw [h c (Finset.mem_range.1 hc), mul_zero]
  simp only [MatrixXd.transMulVec, hz]

theorem CollData.bound_terms (mb : MultiBody) (mbc : MultiBodyConfig) (step : ℚ)
    (d : CollData) :
    d.bound mb mbc step =
      d.dampers mbc + d.jqdn mb mbc + d.jqdnd mb mbc step + d.jdqdn mb mbc step := rfl

theorem reachableFinite_reachable {mb : MultiBody} {s : SelfCollisionConstr}
    (hs : SelfCollisionConstr.ReachableFinite mb s) : SelfCollisionConstr.Reachable mb s := by
  induction hs with
  | init step => exact .init step
  | addCollision b1 i1 b2 i2 di ds damping _ ih => exact .addCollision b1 i1 b2 i2 di ds damping ih
  | rmCollision b1 b2 _ ih => exact .rmCollision b1 b2 ih
  | reset _ ih => exact .reset ih
  | updateNrVars a l t _ ih => exact .updateNrVars a l t ih
  | update mbc _ _ hu ih => exact .update mbc ih hu

/-- Without a zero divisor the bound of the active branch is a finite number, the one of
`CollData.bound`. -/
theorem CollData.boundChecked_eq (mb : MultiBody) (mbc : MultiBodyConfig) (step : ℚ)
    (d : CollData) (hd : d.dist mbc ≠ 0) (hi : d.di - d.ds ≠ 0) (hstep : step ≠ 0) :
    d.boundChecked mb mbc step = some (d.bound mb mbc step) := by
  simp only [CollData.boundChecked, CollData.normalChecked, CollData.dampersChecked,
    Vector3d.divChecked, divChecked, if_neg hd, if_neg hi, if_neg hstep, Option.some_bind,
    CollData.bound, CollData.normal, CollData.dnf, CollData.dampers]

/-- With a zero distance the normal, and with it the bound of the active branch, is not a
finite number. -/
theorem CollData.boundChecked_dist_zero (mb : MultiBody) (mbc : MultiBodyConfig) (step : ℚ)
    (d : CollData) (hd : d.dist mbc = 0) :
    d.normalChecked mbc = none ∧ d.boundChecked mb mbc step = none := by
  have hn : d.normalChecked mbc = none := by
    simp only [CollData.normalChecked, Vector3d.divChecked, if_pos hd]
  exact ⟨hn, by simp only [CollData.boundChecked, hn, Option.none_bind]⟩

/-- C15, counterexample. The pair of `exCollZero` has `0 = ds < di = 3`. In the
configuration `exMbcTouch` the query returns the squared distance 0, so the signed
distance is `d = 0 = ds`, the pair is active and the generalized velocity is zero. The
normal `(pb1 - pb2)/d` is a quotient by zero: it is not a finite vector, and neither is
the value stored in `BInEq(0)`, which is therefore not 0. With the pair of `exColl 3`
(`ds = 1`) at `d = ds = 1` in `exMbcStop` and the time step 0 the rate of the normal
`(n - n_prev)/step` is a quotient by zero and the stored value is not finite either. -/
theorem selfCollision_damping_at_zero_counterexample :
    SelfCollisionConstr.Reachable exMb exCollZero ∧ exMb.nrDof ≤ exCollZero.nrVars ∧
    exCollZero.dataVec[0]? = some exPairZero ∧ exCollZero.step = 1 / 2 ∧
    exPairZero.ds = 0 ∧ exPairZero.di = 3 ∧
    exPairZero.dist exMbcTouch = exPairZero.ds ∧
    (∀ k, k < exMb.nrDof → exMbcTouch.alpha k = 0) ∧
    exPairZero.dist exMbcTouch < exPairZero.di ∧
    exPairZero.normalChecked exMbcTouch = none ∧
    exPairZero.boundChecked exMb exMbcTouch exCollZero.step ≠ some 0 ∧
    (exPair 3).ds = 1 ∧ (exPair 3).dist exMbcStop = (exPair 3).ds ∧
    (exPair 3).boundChecked exMb exMbcStop 0 ≠ some 0 := by
  have hd : exPairZero.dist exMbcTouch = 0 := by
    norm_num [CollData.dist, CollData.closest, exMbcTouch, exMbcRest, exMbc, Rat.sqrt]
  have hds : exPairZero.ds = 0 := rfl
  have hdi : exPairZero.di = 3 := rfl
  obtain ⟨hn, hb⟩ := CollData.boundChecked_dist_zero exMb exMbcTouch exCollZero.step
    exPairZero hd
  have h1 : (exPair 3).dist exMbcStop = 1 := by
    norm_num [CollData.dist, CollData.closest, exMbcStop, exMbcRest, exMbc, Rat.sqrt]
  have hb0 : (exPair 3).boundChecked exMb exMbcStop 0 = none := by
    simp [CollData.boundChecked, CollData.normalChecked, CollData.dampersChecked,
      Vector3d.divChecked, divChecked]
  refine ⟨.updateNrVars 1 0 0 (.addCollision 1 0 2 1 3 0 1 (.init (1 / 2))), by decide, rfl,
    rfl, hds, hdi, by rw [hd, hds], fun _ _ => rfl, by rw [hd, hdi]; norm_num, hn, ?_, rfl,
    by rw [h1]; rfl, ?_⟩
  · rw [hb]; exact fun h => Option.noConfusion h
  · rw [hb0]; exact fun h => Option.noConfusion h

/-- C15, amended. Damping at the stopping distance: in every state the constraint can be
in, with `mb.nrDof() <= nrVars`, `update` succeeds and for every monitored pair with
`0 <= ds < di` whose signed distance is exactly `d = ds` the divisor `di - ds` is
non-zero, the quotient `(d - ds)/(di - ds)` is the finite number 0 and the damping term
`damping*(d - ds)/(di - ds)` is 0. If moreover no quotient of the bound has a zero
divisor, that is `ds > 0` (so that `d` is not 0), the time step is not 0 and no pair was
at distance zero in an earlier `update`, the value stored in `BInEq(i)` is finite and is
the sum `jqdn + jqdnd + jdqdn` of the three velocity terms alone, and `BInEq(i) = 0` when
the generalized velocity `alpha` is zero. -/
theorem selfCollision_damping_at_ds (mb : MultiBody) (s : SelfCollisionConstr)
    (hs : SelfCollisionConstr.Reachable mb s) (mbc : MultiBodyConfig)
    (hdof : mb.nrDof ≤ s.nrVars) :
    ∃ s1, s.update mb mbc = some s1 ∧
      ∀ (i : Nat) (d : CollData), s.dataVec[i]? = some d →
        0 ≤ d.ds → d.ds < d.di → d.dist mbc = d.ds →
        d.di - d.ds ≠ 0 ∧ divChecked (d.dist mbc - d.ds) (d.di - d.ds) = some 0 ∧
        d.dampersChecked mbc = some 0 ∧ d.dampers mbc = 0 ∧
        (0 < d.ds → s.step ≠ 0 → SelfCollisionConstr.ReachableFinite mb s →
          d.boundChecked mb mbc s.step = some (s1.BInEq.coeff i) ∧
          s1.BInEq.coeff i =
            d.jqdn mb mbc + d.jqdnd mb mbc s.step + d.jdqdn mb mbc s.step ∧
          ((∀ k, k < mb.nrDof → mbc.alpha k = 0) → s1.BInEq.coeff i = 0)) := by
  obtain ⟨s1, e, _, _, _, f⟩ := selfCollision_update_spec hs mbc hdof
  refine ⟨s1, e, fun i d hd _ hlt hdist => ?_⟩
  have hne : d.di - d.ds ≠ 0 := sub_ne_zero.2 (ne_of_gt hlt)
  have hq : divChecked (d.dist mbc - d.ds) (d.di - d.ds) = some 0 := by
    rw [divChecked, if_neg hne, hdist, sub_self, zero_div]
  have hdamp : d.dampers mbc = 0 := by
    rw [CollData.dampers, hdist, sub_self, zero_div, mul_zero]
  have hact : d.dist mbc < d.di := by rw [hdist]; exact hlt
  have hb : s1.BInEq.coeff i = d.bound mb mbc s.step := by
    rw [(f i d hd).2.2, CollData.rhs, if_pos hact]
  refine ⟨hne, hq, by rw [CollData.dampersChecked, hq, Option.some_bind, mul_zero], hdamp,
    fun hpos hstep _ => ⟨?_, ?_, fun hz => ?_⟩⟩
  · rw [hb]
    exact CollData.boundChecked_eq mb mbc s.step d (by rw [hdist]; exact ne_of_gt hpos) hne
      hstep
  · rw [hb, CollData.bound_terms, hdamp]
    ring
  · have hz2 : ∀ (J : MatrixXd), J.cols = mb.nrDof →
        J.transMulVec (alphaVec mb mbc) = ⟨0, 0, 0⟩ := fun J hJ =>
      transMulVec_zero J _ (fun k hk => hz k (by omega))
    rw [hb, CollData.bound_eq, hdamp, hz2 _ rfl, hz2 _ rfl]
    simp [Vector3d.dot]

/-- Witness of the amended C15: the pair of `exColl 3` has `ds = 1 < di = 3`; in the
configuration `exMbcStop` it is at `d = ds = 1`, the time step is `1/2`, no `update` has
run before and the velocity is zero: the stored value is finite and `BInEq(0) = 0`. -/
theorem selfCollision_damping_at_ds_witness :
    SelfCollisionConstr.Reachable exMb (exColl 3) ∧ exMb.nrDof ≤ (exColl 3).nrVars ∧
    (exColl 3).dataVec[0]? = some (exPair 3) ∧ (0 : ℚ) ≤ (exPair 3).ds ∧
    (exPair 3).ds < (exPair 3).di ∧ (exPair 3).dist exMbcStop = (exPair 3).ds ∧
    0 < (exPair 3).ds ∧ (exColl 3).step ≠ 0 ∧
    SelfCollisionConstr.ReachableFinite exMb (exColl 3) ∧
    (∀ k, k < exMb.nrDof → exMbcStop.alpha k = 0) ∧
    ∃ s1, (exColl 3).update exMb exMbcStop = some s1 ∧ s1.BInEq.coeff 0 = 0 ∧
      (exPair 3).boundChecked exMb exMbcStop (exColl 3).step = some 0 := by
  have h0 : (0 : ℚ) ≤ (exPair 3).ds := by norm_num [exPair, CollData.new]
  have h1 : (exPair 3).ds < (exPair 3).di := by norm_num [exPair, CollData.new]
  have h2 : (exPair 3).dist exMbcStop = (exPair 3).ds := by
    norm_num [CollData.dist, CollData.closest, exMbcStop, exMbcRest, exMbc, Rat.sqrt, exPair,
      CollData.new]
  have h3 : 0 < (exPair 3).ds := by norm_num [exPair, CollData.new]
  have h4 : (exColl 3).step ≠ 0 := by
    norm_num [exColl, SelfCollisionConstr.updateNrVars, SelfCollisionConstr.addCollision,
      SelfCollisionConstr.new]
  have h5 : SelfCollisionConstr.ReachableFinite exMb (exColl 3) :=
    .updateNrVars 1 0 0 (.addCollision 1 0 2 1 3 1 1 (.init (1 / 2)))
  obtain ⟨s1, e, f⟩ := selfCollision_damping_at_ds exMb (exColl 3) (exColl_reachable 3)
    exMbcStop (by decide)
  obtain ⟨g1, _, g3⟩ := (f 0 (exPair 3) rfl h0 h1 h2).2.2.2.2 h3 h4 h5
  have hz := g3 (fun _ _ => rfl)
  refine ⟨exColl_reachable 3, by decide, rfl, h0, h1, h2, h3, h4, h5, fun _ _ => rfl, s1, e,
    hz, ?_⟩
  rw [g1, hz]

theorem mul_abs_mono (a b : ℚ) (h : a ≤ b) : a * |a| ≤ b * |b| := by
  rcases le_total 0 a with ha | ha <;> rcases le_total 0 b with hb | hb
  · rw [abs_of_nonneg ha, abs_of_nonneg hb]; nlinarith
  · have : a = 0 := le_antisymm (le_trans h hb) ha
    have : b = 0 := le_antisymm hb (by rw [← this]; exact h)
    simp [*]
  · rw [abs_of_nonpos ha, abs_of_nonneg hb]; nlinarith
  · rw [abs_of_nonpos ha, abs_of_nonpos hb]; nlinarith

theorem dist_mul_abs (mbc : MultiBodyConfig) (d : CollData)
    (h0 : 0 ≤ mbc.sqrt |(d.closest mbc).1|)
    (h1 : mbc.sqrt |(d.closest mbc).1| * mbc.sqrt |(d.closest mbc).1| = |(d.closest mbc).1|) :
    d.dist mbc * |d.dist mbc| = (d.closest mbc).1 ∧
    (d.dist mbc < 0 ↔ (d.closest mbc).1 < 0) := by
  unfold CollData.dist
  by_cases hs : (d.closest mbc).1 ≥ 0
  · rw [if_pos hs]
    rw [abs_of_nonneg hs] at h0 h1
    rw [abs_of_nonneg h0]
    exact ⟨h1, ⟨fun h => absurd h (not_lt.2 h0), fun h => absurd h (not_lt.2 hs)⟩⟩
  · rw [if_neg hs]
    have hneg : (d.closest mbc).1 < 0 := not_le.1 hs
    rw [abs_of_neg hneg] at h0 h1
    have hpos : 0 < mbc.sqrt (-(d.closest mbc).1) := by
      rcases lt_or_eq_of_le h0 with h | h
      · exact h
      · rw [← h] at h1; simp at h1; linarith
    rw [abs_neg, abs_of_nonneg h0]
    exact ⟨by linarith, ⟨fun _ => hneg, fun _ => by linarith⟩⟩

theorem exSqrt_nonneg (x : ℚ) : 0 ≤ exSqrt x := Nat.cast_nonneg _

theorem exSqrt_pos (x : ℚ) (h : 0 < x) : 0 < exSqrt x :=
  Nat.cast_pos.2 (Nat.sqrt_pos.2 (Nat.ceil_pos.2 h))

theorem exSqrt_mono (x y : ℚ) (h : x ≤ y) : exSqrt x ≤ exSqrt y :=
  Nat.cast_le.2 (Nat.sqrt_le_sqrt (Nat.ceil_mono h))

theorem exSqrt_four : exSqrt 4 = 2 := by
  have h : ⌈(4 : ℚ)⌉₊ = 2 * 2 := by simp
  rw [exSqrt, h, Nat.sqrt_eq]
  norm_num

theorem exSqrt_two : exSqrt 2 = 1 := by
  have h : ⌈(2 : ℚ)⌉₊ = 2 := by simp
  have h2 : Nat.sqrt 2 = 1 := by
    symm; rw [Nat.eq_sqrt]; decide
  rw [exSqrt, h, h2]
  norm_num

theorem exSqrt_three : exSqrt 3 = 1 := by
  have h : ⌈(3 : ℚ)⌉₊ = 3 := by simp
  have h2 : Nat.sqrt 3 = 1 := by
    symm; rw [Nat.eq_sqrt]; decide
  rw [exSqrt, h, h2]
  norm_num

theorem rat_mul_self_ne_two (q : ℚ) : q * q ≠ 2 := by
  intro h
  have hq : (|q| : ℚ) * |q| = 2 := by rw [abs_mul_abs_self]; exact h
  have hr : ((|q| : ℚ) : ℝ) * ((|q| : ℚ) : ℝ) = 2 := by exact_mod_cast hq
  have h0 : (0 : ℝ) ≤ ((|q| : ℚ) : ℝ) := by exact_mod_cast abs_nonneg q
  have hs : Real.sqrt 2 = ((|q| : ℚ) : ℝ) :=
    (Real.sqrt_eq_iff_mul_self_eq (by norm_num) h0).2 hr.symm
  exact irrational_sqrt_two.ne_rat _ hs

theorem rat_mul_abs_ne_two (q : ℚ) : q * |q| ≠ 2 := by
  intro h
  rcases le_total 0 q with hq | hq
  · rw [abs_of_nonneg hq] at h
    exact rat_mul_self_ne_two q h
  · rw [abs_of_nonpos hq] at h
    nlinarith

theorem exMbcQuery_dist (f : ℚ → ℚ) (s : ℚ) (d : CollData) :
    (d.closest (exMbcQuery f s)).1 = s ∧
    d.dist (exMbcQuery f s) = if s ≥ 0 then f s else -f (-s) := ⟨rfl, rfl⟩

theorem dist_sign (mbc : MultiBodyConfig) (d : CollData)
    (hnn : ∀ x, 0 ≤ x → 0 ≤ mbc.sqrt x) (hpos : ∀ x, 0 < x → 0 < mbc.sqrt x) :
    (d.dist mbc < 0 ↔ (d.closest mbc).1 < 0) ∧ (0 < (d.closest mbc).1 → 0 < d.dist mbc) := by
  unfold CollData.dist
  by_cases hs : (d.closest mbc).1 ≥ 0
  · rw [if_pos hs]
    exact ⟨⟨fun h => absurd h (not_lt.2 (hnn _ hs)), fun h => absurd h (not_lt.2 hs)⟩,
      fun h => hpos _ h⟩
  · rw [if_neg hs]
    have hneg : (d.closest mbc).1 < 0 := not_le.1 hs
    have := hpos (-(d.closest mbc).1) (by linarith)
    exact ⟨⟨fun _ => hneg, fun _ => by linarith⟩, fun h => absurd h (not_lt.2 hneg.le)⟩

theorem dist_mono (mbc mbc2 : MultiBodyConfig) (d d2 : CollData)
    (hnn : ∀ x, 0 ≤ x → 0 ≤ mbc.sqrt x)
    (hmono : ∀ x y, 0 ≤ x → x ≤ y → mbc.sqrt x ≤ mbc.sqrt y)
    (hsame : mbc2.sqrt = mbc.sqrt) (hle : (d.closest mbc).1 ≤ (d2.closest mbc2).1) :
    d.dist mbc ≤ d2.dist mbc2 := by
  unfold CollData.dist
  rw [hsame]
  by_cases hs : (d.closest mbc).1 ≥ 0
  · have hs2 : (d2.closest mbc2).1 ≥ 0 := le_trans hs hle
    rw [if_pos hs, if_pos hs2]
    exact hmono _ _ hs hle
  · have hneg : (d.closest mbc).1 < 0 := not_le.1 hs
    rw [if_neg hs]
    have h1 := hnn (-(d.closest mbc).1) (by linarith)
    by_cases hs2 : (d2.closest mbc2).1 ≥ 0
    · rw [if_pos hs2]
      have h2 := hnn _ hs2
      linarith
    · have hneg2 : (d2.closest mbc2).1 < 0 := not_le.1 hs2
      rw [if_neg hs2]
      have h2 := hmono (-(d2.closest mbc2).1) (-(d.closest mbc).1) (by linarith) (by linarith)
      linarith

theorem dist_exact_iff (mbc : MultiBodyConfig) (d : CollData)
    (h0 : 0 ≤ mbc.sqrt |(d.closest mbc).1|) :
    d.dist mbc * |d.dist mbc| = (d.closest mbc).1 ↔
      mbc.sqrt |(d.closest mbc).1| * mbc.sqrt |(d.closest mbc).1| = |(d.closest mbc).1| := by
  unfold CollData.dist
  by_cases hs : (d.closest mbc).1 ≥ 0
  · rw [abs_of_nonneg hs] at h0 ⊢
    rw [if_pos hs, abs_of_nonneg h0]
  · have hneg : (d.closest mbc).1 < 0 := not_le.1 hs
    rw [abs_of_neg hneg] at h0 ⊢
    rw [if_neg hs, abs_neg, abs_of_nonneg h0]
    constructor <;> intro h <;> linarith

/-- C16, counterexample. At the query value `s = 2`, whatever the function `sqrt` returns,
the distance `d` of `update` has `d*|d| ≠ 2`: no rational number, so no double, has the
square 2. With `Rat.sqrt` the distance is `d = 1` and `d*|d| = 1`. With the rounded
square root `exSqrt` the query values 2 and 3 give the same distance `d = 1`: `d` is not
strictly increasing in `s`. -/
theorem selfCollision_signed_distance_counterexample :
    (∀ f : ℚ → ℚ, ((exPair 3).closest (exMbcQuery f 2)).1 = 2 ∧
      (exPair 3).dist (exMbcQuery f 2) * |(exPair 3).dist (exMbcQuery f 2)| ≠ 2) ∧
    (exPair 3).dist (exMbcQuery Rat.sqrt 2) = 1 ∧
    ((exPair 3).closest (exMbcQuery exSqrt 2)).1 = 2 ∧
    ((exPair 3).closest (exMbcQuery exSqrt 3)).1 = 3 ∧
    (exPair 3).dist (exMbcQuery exSqrt 2) = 1 ∧
    (exPair 3).dist (exMbcQuery exSqrt 3) = 1 := by
  refine ⟨fun f => ⟨rfl, rat_mul_abs_ne_two _⟩, ?_, rfl, rfl, ?_, ?_⟩
  · rw [(exMbcQuery_dist _ _ _).2]
    norm_num [Rat.sqrt]
  · rw [(exMbcQuery_dist _ _ _).2, if_pos (by norm_num), exSqrt_two]
  · rw [(exMbcQuery_dist _ _ _).2, if_pos (by norm_num), exSqrt_three]

/-- C16, amended. Signed distance: for every value `s` returned by the closest-points
query, the distance `d` used by `SelfCollisionConstr::update` is `sqrt(s)` when `s >= 0`
and `-sqrt(-s)` when `s < 0`. For every function `sqrt` that is non-negative and is
positive on positive arguments, `d < 0` exactly when `s < 0`, and `d > 0` when `s > 0`.
For every function `sqrt` that is non-negative and non-decreasing on non-negative
arguments, `d` is non-decreasing in `s`: of two queries, the one with the smaller `s`
has the smaller or the same `d`. Where `sqrt(|s|) >= 0`, `d*|d| = s` holds exactly when
`sqrt(|s|)` is the exact root, `sqrt(|s|)^2 = |s|`; between two values at which `sqrt`
is exact, `d` is strictly increasing. -/
theorem selfCollision_signed_distance (mbc : MultiBodyConfig) (d : CollData) :
    (d.dist mbc = if (d.closest mbc).1 ≥ 0 then mbc.sqrt (d.closest mbc).1
      else -mbc.sqrt (-(d.closest mbc).1)) ∧
    ((∀ x, 0 ≤ x → 0 ≤ mbc.sqrt x) → (∀ x, 0 < x → 0 < mbc.sqrt x) →
      (d.dist mbc < 0 ↔ (d.closest mbc).1 < 0) ∧
      (0 < (d.closest mbc).1 → 0 < d.dist mbc)) ∧
    ((∀ x, 0 ≤ x → 0 ≤ mbc.sqrt x) →
      (∀ x y, 0 ≤ x → x ≤ y → mbc.sqrt x ≤ mbc.sqrt y) →
      ∀ (mbc2 : MultiBodyConfig) (d2 : CollData), mbc2.sqrt = mbc.sqrt →
        (d.closest mbc).1 ≤ (d2.closest mbc2).1 → d.dist mbc ≤ d2.dist mbc2) ∧
    (0 ≤ mbc.sqrt |(d.closest mbc).1| →
      (d.dist mbc * |d.dist mbc| = (d.closest mbc).1 ↔
        mbc.sqrt |(d.closest mbc).1| * mbc.sqrt |(d.closest mbc).1| = |(d.closest mbc).1|)) ∧
    ((0 ≤ mbc.sqrt |(d.closest mbc).1| ∧
        mbc.sqrt |(d.closest mbc).1| * mbc.sqrt |(d.closest mbc).1| = |(d.closest mbc).1|) →
      ∀ (mbc2 : MultiBodyConfig) (d2 : CollData),
        (0 ≤ mbc2.sqrt |(d2.closest mbc2).1| ∧
          mbc2.sqrt |(d2.closest mbc2).1| * mbc2.sqrt |(d2.closest mbc2).1|
            = |(d2.closest mbc2).1|) →
        (d.closest mbc).1 < (d2.closest mbc2).1 → d.dist mbc < d2.dist mbc2) := by
  refine ⟨rfl, dist_sign mbc d, fun hnn hmono mbc2 d2 hsame hle =>
    dist_mono mbc mbc2 d d2 hnn hmono hsame hle, dist_exact_iff mbc d, fun h => ?_⟩
  obtain ⟨p1, _⟩ := dist_mul_abs mbc d h.1 h.2
  intro mbc2 d2 h2 hlt
  obtain ⟨q1, _⟩ := dist_mul_abs mbc2 d2 h2.1 h2.2
  by_contra hcon
  have := mul_abs_mono _ _ (not_lt.1 hcon)
  linarith

/-- Witness of the amended C16 with the rounded square root `exSqrt`, which is
non-negative, positive on positive arguments and non-decreasing. The query value `-4`
gives `d = -2 < 0` and the query value `4` gives `d = 2`; `exSqrt` is exact at 4, so
`(-2)*|-2| = -4` and `-2 < 2`. The query value 2, at which `exSqrt` is not exact, gives
`d = 1` with `-2 <= 1`. -/
theorem selfCollision_signed_distance_witness :
    (∀ x, 0 ≤ x → 0 ≤ (exMbcQuery exSqrt (-4)).sqrt x) ∧
    (∀ x, 0 < x → 0 < (exMbcQuery exSqrt (-4)).sqrt x) ∧
    (∀ x y, 0 ≤ x → x ≤ y →
      (exMbcQuery exSqrt (-4)).sqrt x ≤ (exMbcQuery exSqrt (-4)).sqrt y) ∧
    ((exPair 3).closest (exMbcQuery exSqrt (-4))).1 = -4 ∧
    ((exPair 3).closest (exMbcQuery exSqrt 4)).1 = 4 ∧
    ((exPair 3).closest (exMbcQuery exSqrt 2)).1 = 2 ∧
    (0 ≤ (exMbcQuery exSqrt (-4)).sqrt |((exPair 3).closest (exMbcQuery exSqrt (-4))).1| ∧
      (exMbcQuery exSqrt (-4)).sqrt |((exPair 3).closest (exMbcQuery exSqrt (-4))).1| *
        (exMbcQuery exSqrt (-4)).sqrt |((exPair 3).closest (exMbcQuery exSqrt (-4))).1|
          = |((exPair 3).closest (exMbcQuery exSqrt (-4))).1|) ∧
    (0 ≤ (exMbcQuery exSqrt 4).sqrt |((exPair 3).closest (exMbcQuery exSqrt 4)).1| ∧
      (exMbcQuery exSqrt 4).sqrt |((exPair 3).closest (exMbcQuery exSqrt 4)).1| *
        (exMbcQuery exSqrt 4).sqrt |((exPair 3).closest (exMbcQuery exSqrt 4)).1|
          = |((exPair 3).closest (exMbcQuery exSqrt 4)).1|) ∧
    (exPair 3).dist (exMbcQuery exSqrt (-4)) = -2 ∧
    (exPair 3).dist (exMbcQuery exSqrt 4) = 2 ∧
    (exPair 3).dist (exMbcQuery exSqrt 2) = 1 ∧
    ((exPair 3).dist (exMbcQuery exSqrt (-4)) < 0 ↔
      ((exPair 3).closest (exMbcQuery exSqrt (-4))).1 < 0) ∧
    (exPair 3).dist (exMbcQuery exSqrt (-4)) ≤ (exPair 3).dist (exMbcQuery exSqrt 2) ∧
    (exPair 3).dist (exMbcQuery exSqrt (-4)) * |(exPair 3).dist (exMbcQuery exSqrt (-4))|
      = ((exPair 3).closest (exMbcQuery exSqrt (-4))).1 ∧
    (exPair 3).dist (exMbcQuery exSqrt (-4)) < (exPair 3).dist (exMbcQuery exSqrt 4) := by
  have hnn : ∀ x, 0 ≤ x → 0 ≤ (exMbcQuery exSqrt (-4)).sqrt x := fun x _ => exSqrt_nonneg x
  have hpos : ∀ x, 0 < x → 0 < (exMbcQuery exSqrt (-4)).sqrt x := fun x h => exSqrt_pos x h
  have hmono : ∀ x y, 0 ≤ x → x ≤ y →
      (exMbcQuery exSqrt (-4)).sqrt x ≤ (exMbcQuery exSqrt (-4)).sqrt y :=
    fun x y _ h => exSqrt_mono x y h
  have c1 : ((exPair 3).closest (exMbcQuery exSqrt (-4))).1 = -4 := rfl
  have c2 : ((exPair 3).closest (exMbcQuery exSqrt 4)).1 = 4 := rfl
  have c3 : ((exPair 3).closest (exMbcQuery exSqrt 2)).1 = 2 := rfl
  have r1 : (exMbcQuery exSqrt (-4)).sqrt |((exPair 3).closest (exMbcQuery exSqrt (-4))).1|
      = 2 := by
    rw [c1, show |(-4 : ℚ)| = 4 by norm_num]; exact exSqrt_four
  have r2 : (exMbcQuery exSqrt 4).sqrt |((exPair 3).closest (exMbcQuery exSqrt 4)).1| = 2 := by
    rw [c2, show |(4 : ℚ)| = 4 by norm_num]; exact exSqrt_four
  have h1 :
      0 ≤ (exMbcQuery exSqrt (-4)).sqrt |((exPair 3).closest (exMbcQuery exSqrt (-4))).1| ∧
      (exMbcQuery exSqrt (-4)).sqrt |((exPair 3).closest (exMbcQuery exSqrt (-4))).1| *
        (exMbcQuery exSqrt (-4)).sqrt |((exPair 3).closest (exMbcQuery exSqrt (-4))).1|
          = |((exPair 3).closest (exMbcQuery exSqrt (-4))).1| := by
    rw [r1, c1]; norm_num
  have h2 : 0 ≤ (exMbcQuery exSqrt 4).sqrt |((exPair 3).closest (exMbcQuery exSqrt 4)).1| ∧
      (exMbcQuery exSqrt 4).sqrt |((exPair 3).closest (exMbcQuery exSqrt 4)).1| *
        (exMbcQuery exSqrt 4).sqrt |((exPair 3).closest (exMbcQuery exSqrt 4)).1|
          = |((exPair 3).closest (exMbcQuery exSqrt 4)).1| := by
    rw [r2, c2]; norm_num
  have d1 : (exPair 3).dist (exMbcQuery exSqrt (-4)) = -2 := by
    rw [(exMbcQuery_dist _ _ _).2, if_neg (by norm_num), neg_neg, exSqrt_four]
  have d2 : (exPair 3).dist (exMbcQuery exSqrt 4) = 2 := by
    rw [(exMbcQuery_dist _ _ _).2, if_pos (by norm_num), exSqrt_four]
  have d3 : (exPair 3).dist (exMbcQuery exSqrt 2) = 1 := by
    rw [(exMbcQuery_dist _ _ _).2, if_pos (by norm_num), exSqrt_two]
  obtain ⟨_, g1, g2, g3, g4⟩ :=
    selfCollision_signed_distance (exMbcQuery exSqrt (-4)) (exPair 3)
  exact ⟨hnn, hpos, hmono, c1, c2, c3, h1, h2, d1, d2, d3, (g1 hnn hpos).1,
    g2 hnn hmono (exMbcQuery exSqrt 2) (exPair 3) rfl (by rw [c1, c3]; norm_num),
    (g3 h1.1).2 h1.2, g4 h1 (exMbcQuery exSqrt 4) (exPair 3) h2 (by rw [c1, c2]; norm_num)⟩

/-! ### Repeated `update` -/

end tasks.qp
